import Mathlib

/-!
Verification of the trd-hackathon racing-telemetry server against its
natural-language specification.

The Python sources are shallowly embedded as Lean definitions:

* Timestamps are modelled as integer milliseconds.
* Python (IEEE-754 binary64) floating-point arithmetic in the lap-time codec
  is modelled exactly by dyadic numbers (an integer significand times a power
  of two) with round-to-nearest, ties-to-even rounding to 53 significand bits.
  Operations whose machine result is provably exact in the relevant range
  (float floor-division and modulus by 60, exact dyadic differences) are
  modelled by their exact values.
* Telemetry channel values, GPS coordinates and lap distances are modelled as
  exact rationals.
* Fallible Python code (try/except, HTTP error paths) is modelled with
  Option/Except.
-/

/-! ## Dyadic model of IEEE-754 binary64 arithmetic -/

/-- Fuel-based bit length: number of binary digits of n (0 for n = 0).
The recursion halves n at every step, so only logarithmically many steps
of fuel are consumed. -/
def bitLenAux : ℕ → ℕ → ℕ
  | 0, _ => 0
  | f + 1, n => if n = 0 then 0 else bitLenAux f (n / 2) + 1

/-- Bit length of a natural number: the least L with n < 2 ^ L. -/
def natBitLen (n : ℕ) : ℕ := bitLenAux n n

/-- Significand bit count of an integer. -/
def sigBits (a : ℤ) : ℕ := natBitLen a.natAbs

/-- Round-half-even integer division: the nearest integer to a / b for b > 0,
ties going to the even neighbour. -/
def rheDiv (a : ℤ) (b : ℕ) : ℤ :=
  let q := a / (b : ℤ)
  let r := a % (b : ℤ)
  if 2 * r < (b : ℤ) then q
  else if (b : ℤ) < 2 * r then q + 1
  else if q % 2 = 0 then q else q + 1

/-- A dyadic number m * 2 ^ e: the exact value of an IEEE binary64 float
(overflow and subnormals ignored; they cannot occur in the modelled range). -/
structure Dy where
  m : ℤ
  e : ℤ
deriving DecidableEq

/-- The exact rational value of a dyadic number. -/
def Dy.toRat (x : Dy) : ℚ := (x.m : ℚ) * (2 : ℚ) ^ x.e

/-- Round the exact value a * 2 ^ e to at most 53 significand bits
(round to nearest, ties to even): the result of an IEEE operation whose
exact result is a * 2 ^ e. -/
def roundSig (a : ℤ) (e : ℤ) : Dy :=
  if sigBits a ≤ 53 then ⟨a, e⟩
  else ⟨rheDiv a (2 ^ (sigBits a - 53)), e + (sigBits a - 53)⟩

/-- Decide 2 ^ d ≤ a / b for natural a, b > 0 without rational arithmetic. -/
def le2 (d : ℤ) (a : ℕ) (b : ℕ) : Bool :=
  if 0 ≤ d then 2 ^ d.toNat * b ≤ a else b ≤ 2 ^ (-d).toNat * a

/-- Binade exponent of a / b: the E with 2 ^ E ≤ |a / b| < 2 ^ (E + 1)
(for a ≠ 0, b > 0). -/
def flDivExp (a : ℤ) (b : ℕ) : ℤ :=
  let d : ℤ := (natBitLen a.natAbs : ℤ) - (natBitLen b : ℤ)
  if le2 d a.natAbs b then d else d - 1

/-- Correctly rounded binary64 division a / b (b > 0): the float produced by
a Python division of exact integers, or by float(s) for a decimal string s
with value a / b. -/
def flDiv (a : ℤ) (b : ℕ) : Dy :=
  if a = 0 then ⟨0, 0⟩
  else
    let E := flDivExp a b
    let m := if 0 ≤ 52 - E then rheDiv (a * 2 ^ (52 - E).toNat) b
             else rheDiv a (b * 2 ^ (E - 52).toNat)
    ⟨m, E - 52⟩

/-- IEEE addition of two dyadic floats: exact sum, then rounding. -/
def addDy (x y : Dy) : Dy :=
  let e := min x.e y.e
  roundSig (x.m * 2 ^ (x.e - e).toNat + y.m * 2 ^ (y.e - e).toNat) e

/-- IEEE multiplication of a dyadic float by an integer
(the integer is exactly representable in the modelled range). -/
def mulDyInt (x : Dy) (k : ℤ) : Dy := roundSig (x.m * k) x.e

/-- Conversion of a Python int to a float (rounds when the integer needs
more than 53 bits). -/
def intToDy (z : ℤ) : Dy := roundSig z 0

/-- Python int() applied to a float: truncation toward zero. -/
def pyTruncDy (x : Dy) : ℤ :=
  if 0 ≤ x.e then x.m * 2 ^ x.e.toNat else Int.tdiv x.m (2 ^ (-x.e).toNat)

/-- Python float floor-division x // k for a natural k > 0, followed by int():
the mathematical floor of the quotient.  For the values reached by the
codec the machine result is exact, so the exact floor is the faithful model. -/
def floorDivInt (x : Dy) (k : ℕ) : ℤ :=
  if 0 ≤ x.e then (x.m * 2 ^ x.e.toNat) / (k : ℤ) else x.m / ((k : ℤ) * 2 ^ (-x.e).toNat)

/-- The integer printed by formatting (x - 60 * k) with %.3f, times 1000:
the remainder x % 60 (with k = x // 60) is exactly representable, and CPython
formats a float by correctly rounding its exact value, ties to even. -/
def fracPart1000 (x : Dy) (k : ℤ) : ℤ :=
  if 0 ≤ x.e then (x.m * 2 ^ x.e.toNat - 60 * k) * 1000
  else rheDiv ((x.m - 60 * k * 2 ^ (-x.e).toNat) * 1000) (2 ^ (-x.e).toNat)

/-! ## Decimal digit strings -/

/-- The decimal digit character for d (d ≤ 9; larger inputs clamp to 9,
an unreachable case in this development). -/
def digitChar : ℕ → Char
  | 0 => '0' | 1 => '1' | 2 => '2' | 3 => '3' | 4 => '4'
  | 5 => '5' | 6 => '6' | 7 => '7' | 8 => '8' | _ => '9'

/-- The numeric value of a decimal digit character. -/
def digitVal (c : Char) : Option ℕ :=
  if c = '0' then some 0 else if c = '1' then some 1 else if c = '2' then some 2
  else if c = '3' then some 3 else if c = '4' then some 4 else if c = '5' then some 5
  else if c = '6' then some 6 else if c = '7' then some 7 else if c = '8' then some 8
  else if c = '9' then some 9 else none

/-- Fuel-based decimal rendering; the fuel only bounds the digit count, and
one step is consumed per digit. -/
def natDigitsAux : ℕ → ℕ → List Char
  | 0, _ => []
  | f + 1, n =>
    if n < 10 then [digitChar n]
    else natDigitsAux f (n / 10) ++ [digitChar (n % 10)]

/-- Decimal rendering of a natural number, most significant digit first
(the rendering of a nonnegative int by a Python f-string). -/
def natDigits (n : ℕ) : List Char := natDigitsAux (n + 1) n

/-- Test that every character of a list is a decimal digit. -/
def allDigits (cs : List Char) : Bool := cs.all (fun c => (digitVal c).isSome)

/-- Numeric value of a list of decimal digit characters (junk digits count 0;
only used under an allDigits guard). -/
def digitsVal (cs : List Char) : ℕ :=
  cs.foldl (fun a c => a * 10 + ((digitVal c).getD 0)) 0

/-- Python int(s) on a plain digit string: its numeric value, or a parse
failure (modelling the ValueError) on an empty or non-digit string. -/
def parseNat (cs : List Char) : Option ℕ :=
  if cs = [] then none else if allDigits cs then some (digitsVal cs) else none

/-- Two-digit zero-padded decimal rendering (for values below 100). -/
def pad2 (n : ℕ) : List Char := [digitChar (n / 10 % 10), digitChar (n % 10)]

/-- Three-digit zero-padded decimal rendering (for values below 1000). -/
def pad3 (n : ℕ) : List Char :=
  [digitChar (n / 100 % 10), digitChar (n / 10 % 10), digitChar (n % 10)]

/-- Python str.split(sep) on a character list: the list of separator-free
chunks; n separators yield n + 1 chunks. -/
def splitChar (sep : Char) : List Char → List (List Char)
  | [] => [[]]
  | c :: cs =>
    if c = sep then [] :: splitChar sep cs
    else
      match splitChar sep cs with
      | [] => [[c]]
      | p :: ps => (c :: p) :: ps

/-- Python float(s) for a decimal string: the integer part, fractional part
and fractional length, so that the parsed value is
(ip * 10 ^ k + fp) / 10 ^ k, to be rounded to binary64 by flDiv.
Fails (ValueError) unless the string is digits, at most one dot, and at
least one digit. -/
def parseDecimalParts (cs : List Char) : Option (ℕ × ℕ × ℕ) :=
  let ip := cs.takeWhile (fun c => c ≠ '.')
  match cs.dropWhile (fun c => c ≠ '.') with
  | [] => if ip ≠ [] ∧ allDigits ip then some (digitsVal ip, 0, 0) else none
  | _ :: fp =>
    if (ip ≠ [] ∨ fp ≠ []) ∧ allDigits ip ∧ allDigits fp then
      some (digitsVal ip, digitsVal fp, fp.length)
    else none

/-! ## The lap-time codec (api_server.py, parse_lap_time and
format_lap_time_from_ms) -/

/-- format_lap_time_from_ms(milliseconds): renders milliseconds as M:SS.mmm
via float arithmetic: total_seconds = ms / 1000.0 (one binary64 rounding),
minutes = int(total_seconds // 60), seconds = total_seconds % 60 (both exact
machine results in range), then an f-string with %06.3f for the seconds.
The source returns None for a None input, which is outside the ℤ domain. -/
def format_lap_time_from_ms (ms : ℤ) : String :=
  let ts := flDiv ms 1000
  let minutes := floorDivInt ts 60
  let n3 := (fracPart1000 ts minutes).toNat
  let minChars := if minutes < 0 then '-' :: natDigits minutes.natAbs else natDigits minutes.toNat
  String.mk (minChars ++ ':' :: (pad2 (n3 / 1000) ++ '.' :: pad3 (n3 % 1000)))

/-- The exact decimal M:SS.mmm rendering of a millisecond count (the ideal
codec the specification describes); used to state what the float formatter
actually produces on [0, 3599999]. -/
def fmtExactMs (n : ℕ) : String :=
  String.mk (natDigits (n / 60000) ++
    ':' :: (pad2 (n % 60000 / 1000) ++ '.' :: pad3 (n % 60000 % 1000)))

/-- parse_lap_time(lap_time_str): splits on a colon, parses minutes with
int() and seconds with float(), and returns int((minutes * 60 + seconds)
* 1000) — two float roundings (int-to-float conversion of minutes * 60 is a
third, modelled by intToDy) followed by truncation toward zero.  A string
without a colon is seconds only.  Empty input and parse errors give None. -/
def parse_lap_time (s : String) : Option ℤ :=
  if s = "" then none
  else if s.data.contains ':' then
    match splitChar ':' s.data with
    | p0 :: p1 :: _ =>
      match parseNat p0, parseDecimalParts p1 with
      | some minutes, some (ip, fp, k) =>
        let seconds := flDiv ((ip : ℤ) * 10 ^ k + fp) (10 ^ k)
        some (pyTruncDy (mulDyInt (addDy (intToDy ((minutes : ℤ) * 60)) seconds) 1000))
      | _, _ => none
    | _ => none
  else
    match parseDecimalParts s.data with
    | some (ip, fp, k) =>
      some (pyTruncDy (mulDyInt (flDiv ((ip : ℤ) * 10 ^ k + fp) (10 ^ k)) 1000))
    | none => none

/-! ## Fallback lap timing (api_server.py, get_fallback_lap_data)

Timestamps are integer milliseconds.  A lap duration in milliseconds is
computed in the source as int((end - start).total_seconds() * 1000); for
integer-millisecond timestamps this equals the exact difference for every
duration near the validity band (in particular the float conversion never
moves a duration across the 30000/300000 boundaries), so the exact integer
difference is the faithful model. -/

/-- One row of a lap start/end marker CSV for one vehicle. -/
structure LapMarker where
  lap : ℕ
  time : ℤ
deriving DecidableEq

/-- One entry of the per-lap map produced by the fallback path.  The sector
and speed fields are always absent there (None in the source). -/
structure LapEntry where
  lap_number : ℕ
  lap_time : String
  lap_time_ms : Option ℤ
  lap_improvement : ℤ
  top_speed : Option ℚ
  pit_time : Option ℚ
  s1_time : Option String
  s2_time : Option String
  s3_time : Option String
deriving DecidableEq

/-- The JSON object returned by both the fallback path and the merged lap
endpoint: a lap-number-keyed map plus best-lap summary fields.  An Option
field models a JSON key that can be absent or null. -/
structure LapDataResult where
  laps : List (ℕ × LapEntry)
  best_lap : Option ℕ
  best_lap_time : Option String
  best_lap_time_ms : Option ℤ
  total_laps : ℕ
deriving DecidableEq

/-- Python dict insertion: overwrite the value at an existing key, else
append the pair. -/
def upsert (k : ℕ) (v : LapEntry) : List (ℕ × LapEntry) → List (ℕ × LapEntry)
  | [] => [(k, v)]
  | (k0, v0) :: rest => if k0 = k then (k, v) :: rest else (k0, v0) :: upsert k v rest

/-- Accumulator of the lap-matching loop in get_fallback_lap_data. -/
structure FallbackState where
  laps : List (ℕ × LapEntry)
  best_time_ms : Option ℤ
  best_lap_num : Option ℕ
  total_laps : ℕ

/-- The per-lap entry built by the fallback loop for a valid duration. -/
def fallbackEntry (lapNum : ℕ) (ms : ℤ) : LapEntry :=
  { lap_number := lapNum
    lap_time := format_lap_time_from_ms ms
    lap_time_ms := some ms
    lap_improvement := 0
    top_speed := none
    pit_time := none
    s1_time := none
    s2_time := none
    s3_time := none }

/-- The best-lap update test of the fallback loop: the duration must be
strictly above 30000 ms and strictly below the current best (if any). -/
def takeBestCond (best : Option ℤ) (t : ℤ) : Bool :=
  decide (30000 < t) &&
    (match best with
     | none => true
     | some b => decide (t < b))

/-- One iteration of the loop over the sorted lap-start rows: find the first
end row with the same lap number, skip the lap unless its duration lies in
[30000 ms, 300000 ms], otherwise insert the lap entry, update the best lap
via takeBestCond and count the lap. -/
def processStart (ends : List LapMarker) (st : FallbackState) (s : LapMarker) :
    FallbackState :=
  match (ends.filter (fun e => e.lap = s.lap)).head? with
  | none => st
  | some e =>
    let lapTimeMs : ℤ := e.time - s.time
    if lapTimeMs < 30000 ∨ 300000 < lapTimeMs then st
    else
      { laps := upsert s.lap (fallbackEntry s.lap lapTimeMs) st.laps
        best_time_ms := if takeBestCond st.best_time_ms lapTimeMs then some lapTimeMs
                        else st.best_time_ms
        best_lap_num := if takeBestCond st.best_time_ms lapTimeMs then some s.lap
                        else st.best_lap_num
        total_laps := st.total_laps + 1 }

/-- get_fallback_lap_data for one vehicle, given its rows of the lap-start
and lap-end files.  Empty inputs are the 404 error paths of the source
(missing files or no rows for the vehicle).  Start and end rows are sorted
by lap number (a stable sort, as in pandas) before matching. -/
def get_fallback_lap_data (starts ends : List LapMarker) :
    Except String LapDataResult :=
  if starts = [] ∨ ends = [] then .error "No lap timing data found"
  else
    let ss := starts.insertionSort (fun a b => a.lap ≤ b.lap)
    let es := ends.insertionSort (fun a b => a.lap ≤ b.lap)
    let st := ss.foldl (processStart es) ⟨[], none, none, 0⟩
    .ok
      { laps := st.laps
        best_lap := st.best_lap_num
        best_lap_time :=
          match st.best_lap_num with
          | some l => (st.laps.lookup l).map (fun e => e.lap_time)
          | none => none
        best_lap_time_ms := st.best_time_ms
        total_laps := st.total_laps }

/-! ## Official best-lap merge (api_server.py, get_lap_data and
load_best_laps_data) -/

/-- One car's row of the official best-laps table, as cached by
load_best_laps_data (the fields the merge consumes). -/
structure OfficialBest where
  best_lap_time : String
  best_lap_number : ℕ
  total_laps : ℕ
deriving DecidableEq

/-- A Python dict key on the merge path.  get_fallback_lap_data builds its
laps dict with int keys, but the merge reads that dict back through
jsonify and get_json, which serialises the keys to their decimal strings;
the official best lap number stays an int.  Python equality between an int
and a str is False (each __eq__ returns NotImplemented for the other
type), so a dict membership test matches only keys of the same type, which
the derived decidable equality on this sum reproduces. -/
inductive PyKey where
  | int (n : ℕ)
  | str (s : String)
deriving DecidableEq

/-- The key under which lap k appears in the merge after the
jsonify/get_json round trip: the decimal string of k. -/
def jsonLapKey (k : ℕ) : PyKey := PyKey.str (String.mk (natDigits k))

/-- The merged response body of the lap endpoint: like LapDataResult, but
its laps dict has been through jsonify/get_json, so it is keyed by PyKey
(in fact always string keys). -/
structure MergedLapData where
  laps : List (PyKey × LapEntry)
  best_lap : Option ℕ
  best_lap_time : Option String
  best_lap_time_ms : Option ℤ
  total_laps : ℕ
deriving DecidableEq

/-- get_lap_data for one vehicle: `official` is the best-laps table lookup
for the car number parsed from the vehicle id (none when the car is absent
from the table).  Without an official row the fallback result is returned
(jsonified, so with string lap keys).  With one, the fallback result is
read back through get_json (string lap keys) and its top-level best-lap
fields are overwritten with the official values; the source then tests
whether the int best_lap_number is a key of that dict and only then
overwrites the entry's time fields - the test is kept verbatim here, with
the int key probed against the string keys.  A fallback error propagates
as an error response (in the source the error tuple lacks get_json, so
the except handler turns it into a 500). -/
def get_lap_data (official : Option OfficialBest) (starts ends : List LapMarker) :
    Except String MergedLapData :=
  match official with
  | none =>
    match get_fallback_lap_data starts ends with
    | .error msg => .error msg
    | .ok fb =>
      .ok
        { laps := fb.laps.map (fun p => (jsonLapKey p.1, p.2))
          best_lap := fb.best_lap
          best_lap_time := fb.best_lap_time
          best_lap_time_ms := fb.best_lap_time_ms
          total_laps := fb.total_laps }
  | some od =>
    let bestMs := parse_lap_time od.best_lap_time
    match get_fallback_lap_data starts ends with
    | .error msg => .error msg
    | .ok fb =>
      let laps0 := fb.laps.map (fun p => (jsonLapKey p.1, p.2))
      .ok
        { laps :=
            if (laps0.map Prod.fst).contains (PyKey.int od.best_lap_number) then
              laps0.map (fun p =>
                if p.1 = PyKey.int od.best_lap_number then
                  (p.1, { p.2 with lap_time := od.best_lap_time, lap_time_ms := bestMs })
                else p)
            else laps0
          best_lap := some od.best_lap_number
          best_lap_time := some od.best_lap_time
          best_lap_time_ms := bestMs
          total_laps := od.total_laps }

/-! ## Live race positions (api_server.py, get_race_positions_at_time)

The modelled slice is the telemetry path: each car already resolved to a
lap number and a lap distance (method 1 of the source), the total-distance
formula, the descending sort and the 1-based position numbering.  The other
estimation tiers feed the same formula and the same sort. -/

/-- A car with its lap and lap distance at the requested instant. -/
structure CarSnapshot where
  car_number : ℕ
  lap : ℤ
  lap_distance : ℚ
deriving DecidableEq

/-- One element of the positions array of the response. -/
structure PositionEntry where
  car_number : ℕ
  lap : ℤ
  lap_distance : ℚ
  total_distance : ℚ
  race_position : ℕ
deriving DecidableEq

/-- Barber track length used by the position/distance arithmetic. -/
def track_length : ℚ := 3710

/-- Assign 1-based race positions in list order. -/
def numberPositions : ℕ → List PositionEntry → List PositionEntry
  | _, [] => []
  | i, p :: rest => { p with race_position := i } :: numberPositions (i + 1) rest

/-- get_race_positions_at_time, telemetry path: compute each car's total
distance as (lap - 1) * 3710 + lap_distance, sort descending by total
distance (a stable sort, as list.sort with reverse=True), and number the
result 1, 2, 3, ... -/
def get_race_positions_at_time (cars : List CarSnapshot) : List PositionEntry :=
  let ps := cars.map (fun c =>
    { car_number := c.car_number
      lap := c.lap
      lap_distance := c.lap_distance
      total_distance := ((c.lap : ℚ) - 1) * track_length + c.lap_distance
      race_position := 0 : PositionEntry })
  numberPositions 1 (ps.insertionSort (fun a b => b.total_distance ≤ a.total_distance))

/-! ## Telemetry chunk and single-point endpoints (api_server.py,
get_telemetry_chunk and get_position_at_time) -/

/-- One row of the full telemetry CSV for one vehicle. -/
structure TeleRow where
  timestamp : ℤ
  telemetry_name : String
  telemetry_value : ℚ
  lap : ℤ
deriving DecidableEq

/-- One emitted telemetry point: built only when both GPS channels are
present at the timestamp; the other channels are optional. -/
structure ChunkPoint where
  timestamp : ℤ
  lap : ℤ
  latitude : ℚ
  longitude : ℚ
  speed : Option ℚ
  gear : Option ℚ
  throttle : Option ℚ
  brake_rear : Option ℚ
  brake_front : Option ℚ
  engine_rpm : Option ℚ
  steering_angle : Option ℚ
  g_force_x : Option ℚ
  g_force_y : Option ℚ
  lap_distance : Option ℚ
deriving DecidableEq

/-- The value stored in the per-timestamp telemetry dict for a channel:
the dict is filled row by row, so the last row of the group wins. -/
def lastValue (rows : List TeleRow) (name : String) : Option ℚ :=
  ((rows.filter (fun r => r.telemetry_name = name)).getLast?).map
    (fun r => r.telemetry_value)

/-- Build the telemetry record for one timestamp group, or nothing if either
GPS channel is absent.  The lap field is the first row's lap, with a falsy
lap (0) replaced by 1 as in int(lap) if lap else 1. -/
def buildChunkPoint (t : ℤ) (group : List TeleRow) : Option ChunkPoint :=
  match lastValue group "VBOX_Lat_Min", lastValue group "VBOX_Long_Minutes" with
  | some la, some lo =>
    let lap0 := (group.head?).map (fun r => r.lap)
    some
      { timestamp := t
        lap := match lap0 with
               | some l => if l = 0 then 1 else l
               | none => 1
        latitude := la
        longitude := lo
        speed := lastValue group "speed"
        gear := lastValue group "gear"
        throttle := lastValue group "aps"
        brake_rear := lastValue group "pbrake_r"
        brake_front := lastValue group "pbrake_f"
        engine_rpm := lastValue group "nmot"
        steering_angle := lastValue group "Steering_Angle"
        g_force_x := lastValue group "accx_can"
        g_force_y := lastValue group "accy_can"
        lap_distance := lastValue group "Laptrigger_lapdist_dls" }
  | _, _ => none

/-- The sorted distinct timestamps of a row list (pandas groupby iterates
groups in ascending key order). -/
def uniqueTimestamps (rows : List TeleRow) : List ℤ :=
  ((rows.map (fun r => r.timestamp)).insertionSort (fun a b => a ≤ b)).dedup

/-- get_telemetry_chunk: filter by the optional inclusive time range, group
by timestamp, and emit one record per group that has both GPS channels. -/
def get_telemetry_chunk (rows : List TeleRow) (startT endT : Option ℤ) :
    List ChunkPoint :=
  let filtered := rows.filter (fun r =>
    (match startT with | some s => decide (s ≤ r.timestamp) | none => true) &&
    (match endT with | some e => decide (r.timestamp ≤ e) | none => true))
  (uniqueTimestamps filtered).filterMap (fun t =>
    buildChunkPoint t (filtered.filter (fun r => r.timestamp = t)))

/-- The timestamp of the first row minimizing |timestamp - target|
(pandas idxmin returns the first minimizing index). -/
def minAbsDiffTime (rows : List TeleRow) (target : ℤ) : Option ℤ :=
  rows.foldl (fun acc r =>
    match acc with
    | none => some r.timestamp
    | some t => if |r.timestamp - target| < |t - target| then some r.timestamp else some t)
    none

/-- get_position_at_time: find the closest timestamp, reject it when farther
than 5 seconds (5000 ms), and reject the group when either GPS channel is
missing; both rejections are 404 responses. -/
def get_position_at_time (rows : List TeleRow) (target : ℤ) :
    Except String ChunkPoint :=
  match minAbsDiffTime rows target with
  | none => .error "Vehicle not found"
  | some t =>
    if 5000 < |t - target| then .error "No data found near timestamp"
    else
      match buildChunkPoint t (rows.filter (fun r => r.timestamp = t)) with
      | none => .error "No GPS data at timestamp"
      | some p => .ok p

/-! ## Telemetry augmentation engine (telemetry_augmentation.py)

The crossing detector walks the vehicle's GPS/lap-distance channels pivoted
to one row per (timestamp, lap); the pandas pivot is modelled by taking the
pivoted rows as input.  The GPS proximity test uses the Haversine formula
(transcendental, not shallow-embeddable), so the geometry is abstracted as
a boolean predicate parameter; the two arithmetic detection methods
(lap-distance reset and lap-number change) are modelled exactly. -/

/-- One pivoted row: the GPS and lap-distance channel values present at one
(timestamp, lap) pair. -/
structure PivotRow where
  timestamp : ℤ
  lap : ℤ
  lat : Option ℚ
  lon : Option ℚ
  lap_distance : Option ℚ
deriving DecidableEq

/-- One detected start/finish crossing event.  The Haversine
distance-to-line diagnostic field of the source record is omitted
(transcendental). -/
structure Crossing where
  timestamp : ℤ
  lap_number : ℤ
  detection_method : String
  gps_lat : ℚ
  gps_lon : ℚ
  lap_distance : ℚ
deriving DecidableEq

/-- State threaded through the crossing-detection walk. -/
structure DetectState where
  prevNear : Bool
  prevDist : Option ℚ
  prevLap : Option ℤ
  acc : List Crossing

/-- One step of the detection walk.  Rows with a missing channel are
skipped without updating the previous-state trackers (continue in the
source).  Method 1 is GPS-zone entry, method 2 a lap-distance drop from
above 3000 m to below 100 m, method 3 a lap-number change; the type tag
is overwritten in that order, so the last firing method names the
crossing. -/
def detectStep (isNear : ℚ → ℚ → Bool) (st : DetectState) (row : PivotRow) :
    DetectState :=
  match row.lat, row.lon, row.lap_distance with
  | some la, some lo, some d =>
    let near := isNear la lo
    let m1 := near && !st.prevNear
    let m2 := match st.prevDist with
              | some pd => decide (3000 < pd) && decide (d < 100)
              | none => false
    let m3 := match st.prevLap with
              | some pl => decide (row.lap ≠ pl)
              | none => false
    let st2 :=
      if m1 || m2 || m3 then
        let method := if m3 then "lap_change"
                      else if m2 then "lap_distance_reset"
                      else "gps_entry"
        { st with acc := st.acc ++
            [{ timestamp := row.timestamp
               lap_number := row.lap
               detection_method := method
               gps_lat := la
               gps_lon := lo
               lap_distance := d }] }
      else st
    { st2 with prevNear := near, prevDist := some d, prevLap := some row.lap }
  | _, _, _ => st

/-- detect_start_finish_crossings: sort the pivoted rows by timestamp and
walk them accumulating crossings. -/
def detect_start_finish_crossings (isNear : ℚ → ℚ → Bool)
    (rows : List PivotRow) : List Crossing :=
  ((rows.insertionSort (fun a b => a.timestamp ≤ b.timestamp)).foldl
    (detectStep isNear) ⟨false, none, none, []⟩).acc

/-- One vehicle's row of the official lap-time file, as loaded by
load_official_lap_times. -/
structure OfficialLap where
  lap_number : ℤ
  completion_time : ℤ
  lap_time_ms : Option ℤ
  lap_time : Option String
deriving DecidableEq

/-- A crossing aligned with its official lap-completion record. -/
structure AlignedCrossing where
  crossing : Crossing
  official_completion_time : ℤ
  time_difference_ms : ℤ
  lap_time_ms : Option ℤ
  lap_time : Option String
deriving DecidableEq

/-- The official record for a lap number: the lap-number-keyed dict is
built in list order, so a duplicate lap number keeps the last record. -/
def officialByLap (official : List OfficialLap) (lap : ℤ) : Option OfficialLap :=
  (official.filter (fun o => o.lap_number = lap)).getLast?

/-- align_crossings_with_official_times: keep the crossings whose lap number
has an official record, attaching the official completion time and the
signed official-minus-detected time difference. -/
def align_crossings_with_official_times (crossings : List Crossing)
    (official : List OfficialLap) : List AlignedCrossing :=
  crossings.filterMap (fun c =>
    (officialByLap official c.lap_number).map (fun o =>
      { crossing := c
        official_completion_time := o.completion_time
        time_difference_ms := o.completion_time - c.timestamp
        lap_time_ms := o.lap_time_ms
        lap_time := o.lap_time }))

/-- A synthetic lap-marker telemetry record (the bookkeeping meta columns
of the source record carry only constants and wall-clock strings). -/
structure SyntheticRecord where
  lap : ℤ
  telemetry_name : String
  telemetry_value : String
  timestamp : ℤ
  vehicle_id : String
  vehicle_number : ℤ
deriving DecidableEq

/-- The vehicle number parsed from a composite vehicle id: the last
hyphen-separated part when there are at least three parts, else 0. -/
def vehicleNumberOf (vid : String) : ℤ :=
  let parts := splitChar '-' vid.data
  if 3 ≤ parts.length then
    match parts.getLast? with
    | some p => ((parseNat p).getD 0 : ℕ)
    | none => 0
  else 0

/-- The lap-completion marker for one aligned crossing, at the official
completion time. -/
def completionMarker (vid : String) (c : AlignedCrossing) : SyntheticRecord :=
  { lap := c.crossing.lap_number
    telemetry_name := "lap_completion_marker"
    telemetry_value := "lap_completed"
    timestamp := c.official_completion_time
    vehicle_id := vid
    vehicle_number := vehicleNumberOf vid }

/-- The lap-start marker for the next lap, 100 ms after the official
completion time. -/
def startMarker (vid : String) (c : AlignedCrossing) : SyntheticRecord :=
  { lap := c.crossing.lap_number + 1
    telemetry_name := "lap_start_marker"
    telemetry_value := "lap_started"
    timestamp := c.official_completion_time + 100
    vehicle_id := vid
    vehicle_number := vehicleNumberOf vid }

/-- create_lap_marker_records: per aligned crossing, append a start marker
for the next lap when the crossing's lap number is below 20, then the
completion marker (the source appends in that order). -/
def create_lap_marker_records (aligned : List AlignedCrossing) (vid : String) :
    List SyntheticRecord :=
  aligned.foldl (fun acc c =>
    (acc ++ (if c.crossing.lap_number < 20 then [startMarker vid c] else [])) ++
      [completionMarker vid c]) []

/-- The result dictionary of augment_vehicle_data.  Option fields model
dictionary keys that are present only on some return paths; the
augmented_data list is summarised by the record counts the API consumes. -/
structure AugmentResult where
  error : Option String
  original_records : ℕ
  synthetic_records : ℕ
  detected_crossings : Option ℕ
  aligned_crossings : Option ℕ
deriving DecidableEq

/-- augment_vehicle_data for one vehicle: three degraded early returns
(no telemetry rows, no official lap times, no detected crossings) produce
zero synthetic records without the detected_crossings/aligned_crossings
keys; the full path counts everything. -/
def augment_vehicle_data (isNear : ℚ → ℚ → Bool) (rows : List PivotRow)
    (official : List OfficialLap) (vid : String) : AugmentResult :=
  if rows = [] then
    { error := none, original_records := 0, synthetic_records := 0
      detected_crossings := none, aligned_crossings := none }
  else if official = [] then
    { error := none, original_records := rows.length, synthetic_records := 0
      detected_crossings := none, aligned_crossings := none }
  else
    let cs := detect_start_finish_crossings isNear rows
    if cs = [] then
      { error := none, original_records := rows.length, synthetic_records := 0
        detected_crossings := none, aligned_crossings := none }
    else
      let aligned := align_crossings_with_official_times cs official
      let synth := create_lap_marker_records aligned vid
      { error := none, original_records := rows.length
        synthetic_records := synth.length
        detected_crossings := some cs.length
        aligned_crossings := some aligned.length }

/-- The HTTP status produced by get_augmented_telemetry_info for an
augmentation result: 400 when the result carries an error key; otherwise
the success body reads the detected_crossings and aligned_crossings keys
(a missing key raises KeyError) and divides by the total record count
(zero raises ZeroDivisionError); the blanket except handler turns either
exception into a 500. -/
def get_augmented_telemetry_info (r : AugmentResult) : ℕ :=
  match r.error with
  | some _ => 400
  | none =>
    match r.detected_crossings, r.aligned_crossings with
    | some _, some _ =>
      if r.original_records + r.synthetic_records = 0 then 500 else 200
    | _, _ => 500

/-! ## Lap progression analysis
(src/toyota_gr_cup_analytics/analysis/lap_analysis.py,
analyze_lap_progression, LAP_TIME branch)

The seconds part of a lap-time string and the slope arithmetic are floats
in the source; they are modelled as exact rationals (for the sequences the
specification tests, every intermediate float value is a small dyadic
rational, so the float arithmetic is exact). -/

/-- Round-half-even of a rational to an integer (Python round()). -/
def rheQ (q : ℚ) : ℤ :=
  let f := ⌊q⌋
  let r := q - (f : ℚ)
  if r < 1 / 2 then f
  else if 1 / 2 < r then f + 1
  else if f % 2 = 0 then f else f + 1

/-- Python round(x, k): round half to even at the k-th decimal. -/
def roundTo (k : ℕ) (q : ℚ) : ℚ := (rheQ (q * 10 ^ k) : ℚ) / 10 ^ k

/-- Python str.strip(): drop leading and trailing whitespace characters. -/
def trimChars (cs : List Char) : List Char :=
  ((cs.dropWhile (fun c => c == ' ' || c == '\t' || c == '\n' || c == '\r')).reverse.dropWhile
    (fun c => c == ' ' || c == '\t' || c == '\n' || c == '\r')).reverse

/-- The per-entry lap-time parse of analyze_lap_progression: strip, require
a colon and exactly two parts, minutes via int() and seconds via float(),
combined as minutes * 60 + seconds. -/
def parseAnalysisLapTime (s : String) : Option ℚ :=
  let cs := trimChars s.data
  if cs.contains ':' ∧ cs ≠ [] then
    match splitChar ':' cs with
    | [p0, p1] =>
      match parseNat p0, parseDecimalParts p1 with
      | some m, some (ip, fp, k) =>
        some ((m : ℚ) * 60 + ((ip * 10 ^ k + fp : ℕ) : ℚ) / (10 ^ k : ℕ))
      | _, _ => none
    | _ => none
  else none

/-- The analysis results dictionary (LAP_TIME branch fields). -/
structure LapProgression where
  total_laps : ℕ
  average_lap_time : ℚ
  fastest_lap : ℚ
  degradation_rate : ℚ
deriving DecidableEq

/-- analyze_lap_progression on the LAP_TIME column (entries can be missing:
dropna skips them; unparsable entries are skipped silently).  The
degradation rate is the least-squares slope of lap time against 0-based
sequence index, with x-mean (n - 1) / 2 and y-mean the average lap time,
guarded by a nonzero denominator and computed only for n > 1. -/
def analyze_lap_progression (lapTimeCol : List (Option String)) : LapProgression :=
  let lapTimes := (lapTimeCol.filterMap id).filterMap parseAnalysisLapTime
  match lapTimes with
  | [] => { total_laps := lapTimeCol.length, average_lap_time := 0
            fastest_lap := 0, degradation_rate := 0 }
  | y0 :: _ =>
    let n := lapTimes.length
    let avg := lapTimes.sum / (n : ℚ)
    let fast := lapTimes.foldl min y0
    let degr :=
      if 1 < n then
        let xm : ℚ := ((n : ℚ) - 1) / 2
        let num := (lapTimes.enum.map (fun p => ((p.1 : ℚ) - xm) * (p.2 - avg))).sum
        let den := (lapTimes.enum.map (fun p => ((p.1 : ℚ) - xm) ^ 2)).sum
        if den ≠ 0 then num / den else 0
      else 0
    { total_laps := lapTimeCol.length
      average_lap_time := roundTo 3 avg
      fastest_lap := roundTo 3 fast
      degradation_rate := roundTo 6 degr }

/-- The ordinary-least-squares slope exactly as the specification words it:
slope = (sum over i of (i - xbar) * (y i - ybar)) / (sum over i of
(i - xbar) ^ 2) with xbar = (n - 1) / 2 and ybar the mean. -/
def olsSlopeSpec (ys : List ℚ) : ℚ :=
  let n := ys.length
  let xbar : ℚ := ((n : ℚ) - 1) / 2
  let ybar : ℚ := ys.sum / (n : ℚ)
  ((ys.enum.map (fun p => ((p.1 : ℚ) - xbar) * (p.2 - ybar))).sum) /
    ((ys.enum.map (fun p => ((p.1 : ℚ) - xbar) ^ 2)).sum)

/-- Decidable equality of Except values, for evaluating endpoint results on
concrete inputs. -/
instance {ε α : Type} [DecidableEq ε] [DecidableEq α] : DecidableEq (Except ε α) :=
  fun x y =>
    match x, y with
    | .ok a, .ok b => if h : a = b then isTrue (by rw [h]) else isFalse (by simp [h])
    | .error a, .error b => if h : a = b then isTrue (by rw [h]) else isFalse (by simp [h])
    | .ok _, .error _ => isFalse (by simp)
    | .error _, .ok _ => isFalse (by simp)

/-! ## Theorems -/

/-- Singleton lists are already sorted. -/
theorem insertionSort_singleton {α : Type} (r : α → α → Prop) [DecidableRel r] (a : α) :
    List.insertionSort r [a] = [a] := rfl

/-- Claim C6: in the fallback lap computation, a lap whose start-to-end
duration d is outside [30000 ms, 300000 ms] (for instance 29999 or 300001)
is excluded from the laps map and not counted in total_laps, while any
duration inside the band (for instance exactly 30000) is included and
counted. -/
theorem claim_C6 (L : ℕ) (s d : ℤ) :
    ∃ res, get_fallback_lap_data [⟨L, s⟩] [⟨L, s + d⟩] = Except.ok res ∧
      ((res.laps.lookup L).isSome ↔ (30000 ≤ d ∧ d ≤ 300000)) ∧
      res.total_laps = (if 30000 ≤ d ∧ d ≤ 300000 then 1 else 0) := by
  have hmatch : ([⟨L, s + d⟩] : List LapMarker).filter (fun e => e.lap = L) =
      [⟨L, s + d⟩] := by simp
  refine ⟨_, rfl, ?_, ?_⟩ <;>
    [skip; skip] <;>
    by_cases hband : 30000 ≤ d ∧ d ≤ 300000
  · have hnot : ¬ (s + d - s < 30000 ∨ 300000 < s + d - s) := by omega
    simp only [List.insertionSort, List.orderedInsert, List.foldl_cons, List.foldl_nil,
      processStart, hmatch, List.head?, hnot, if_false]
    simp only [upsert, List.lookup, beq_self_eq_true, if_true]
    simpa using hband
  · have hyes : s + d - s < 30000 ∨ 300000 < s + d - s := by omega
    simp only [List.insertionSort, List.orderedInsert, List.foldl_cons, List.foldl_nil,
      processStart, hmatch, List.head?, hyes, if_true]
    simpa using hband
  · have hnot : ¬ (s + d - s < 30000 ∨ 300000 < s + d - s) := by omega
    simp only [List.insertionSort, List.orderedInsert, List.foldl_cons, List.foldl_nil,
      processStart, hmatch, List.head?, hnot, if_false]
    simp [hband]
  · have hyes : s + d - s < 30000 ∨ 300000 < s + d - s := by omega
    simp only [List.insertionSort, List.orderedInsert, List.foldl_cons, List.foldl_nil,
      processStart, hmatch, List.head?, hyes, if_true]
    simp [hband]

/-- Invariant of the fallback loop: a recorded best lap always has a
recorded best time, and a recorded best time is strictly above 30000 ms
(the strictly-greater-than test of the best-lap update). -/
theorem fallback_best_invariant (ends starts : List LapMarker) (st : FallbackState)
    (h1 : ∀ ms, st.best_time_ms = some ms → 30000 < ms)
    (h2 : st.best_lap_num.isSome → st.best_time_ms.isSome) :
    (∀ ms, (starts.foldl (processStart ends) st).best_time_ms = some ms → 30000 < ms) ∧
    ((starts.foldl (processStart ends) st).best_lap_num.isSome →
      (starts.foldl (processStart ends) st).best_time_ms.isSome) := by
  induction starts generalizing st with
  | nil => exact ⟨h1, h2⟩
  | cons x xs ih =>
    simp only [List.foldl_cons]
    refine ih _ ?_ ?_ <;>
      simp only [processStart] <;>
      split
    · exact h1
    · split
      · exact h1
      · rename_i e _ hband
        by_cases htake : takeBestCond st.best_time_ms (e.time - x.time) = true
        · simp only [htake, if_true, Option.some.injEq]
          intro ms hms
          have h30 := of_decide_eq_true ((Bool.and_eq_true _ _).mp htake).1
          omega
        · simp only [htake, if_false]
          exact h1
    · exact h2
    · split
      · exact h2
      · rename_i e _ hband
        by_cases htake : takeBestCond st.best_time_ms (e.time - x.time) = true
        · simp [htake]
        · simp only [htake, if_false]
          exact h2

/-- Claim C9: the fallback best-lap selection tests strictly-greater-than
30000 ms, so a best lap recorded in the result always has a duration above
30000 ms, and a vehicle whose only valid lap lasts exactly 30000 ms gets a
nonempty laps map and a positive total_laps but a null best_lap,
best_lap_time and best_lap_time_ms. -/
theorem claim_C9 :
    (∀ starts ends res, get_fallback_lap_data starts ends = Except.ok res →
      res.best_lap.isSome →
      ∃ ms, res.best_lap_time_ms = some ms ∧ 30000 < ms) ∧
    (∀ (L : ℕ) (s : ℤ), ∃ res,
      get_fallback_lap_data [⟨L, s⟩] [⟨L, s + 30000⟩] = Except.ok res ∧
      0 < res.total_laps ∧ (res.laps.lookup L).isSome ∧
      res.best_lap = none ∧ res.best_lap_time = none ∧
      res.best_lap_time_ms = none) := by
  constructor
  · intro starts ends res hok hsome
    simp only [get_fallback_lap_data] at hok
    split at hok
    · exact absurd hok (by simp)
    · rw [Except.ok.injEq] at hok
      have hinv := fallback_best_invariant (ends.insertionSort (fun a b => a.lap ≤ b.lap))
        (starts.insertionSort (fun a b => a.lap ≤ b.lap)) ⟨[], none, none, 0⟩
        (by intro ms h; simp at h) (by simp)
      subst hok
      simp only at hsome ⊢
      rcases Option.isSome_iff_exists.mp (hinv.2 hsome) with ⟨ms, hms⟩
      exact ⟨ms, hms, hinv.1 ms hms⟩
  · intro L s
    have hmatch : ([⟨L, s + 30000⟩] : List LapMarker).filter (fun e => e.lap = L) =
        [⟨L, s + 30000⟩] := by simp
    have hnot : ¬ (s + 30000 - s < 30000 ∨ 300000 < s + 30000 - s) := by omega
    have htake : takeBestCond none (s + 30000 - s) = false := by
      have : ¬ (30000 < s + 30000 - s) := by omega
      simp [takeBestCond, this]
    refine ⟨_, rfl, ?_, ?_, ?_, ?_, ?_⟩ <;>
      simp only [List.insertionSort, List.orderedInsert, List.foldl_cons, List.foldl_nil,
        processStart, hmatch, List.head?, hnot, if_false, htake, upsert] <;>
      simp [List.lookup]

/-- Witness for claim C9: the fallback result for a single lap of exactly
30000 ms has a counted, mapped lap but no best lap. -/
theorem claim_C9_witness : ∃ res,
    get_fallback_lap_data [⟨5, 0⟩] [⟨5, 0 + 30000⟩] = Except.ok res ∧
    0 < res.total_laps ∧ (res.laps.lookup 5).isSome ∧
    res.best_lap = none ∧ res.best_lap_time = none ∧
    res.best_lap_time_ms = none :=
  claim_C9.2 5 0

/-- After the jsonify/get_json round trip every lap key is a string, so
probing the laps dict with the int best lap number never finds a key:
Python int-str equality is false, and so is the PyKey one. -/
theorem jsonKeys_not_contains_int (l : List (ℕ × LapEntry)) (n : ℕ) :
    ((l.map (fun p => (jsonLapKey p.1, p.2))).map Prod.fst).contains (PyKey.int n) = false := by
  induction l with
  | nil => rfl
  | cons hd tl ih =>
    simp only [List.map_cons, List.contains_cons, ih, Bool.or_false]
    rfl

/-- Claim C2: for a car present in the official best-laps table, whenever
the lap endpoint produces a merged response, its top-level best_lap,
best_lap_time, best_lap_time_ms and total_laps equal the official best lap
number, the official time string, its parsed milliseconds, and the official
total lap count, whatever the fallback computation contains. -/
theorem claim_C2 (od : OfficialBest) (starts ends : List LapMarker)
    (fb : LapDataResult) (hfb : get_fallback_lap_data starts ends = Except.ok fb) :
    ∃ res, get_lap_data (some od) starts ends = Except.ok res ∧
      res.best_lap = some od.best_lap_number ∧
      res.best_lap_time = some od.best_lap_time ∧
      res.best_lap_time_ms = parse_lap_time od.best_lap_time ∧
      res.total_laps = od.total_laps := by
  have h : get_lap_data (some od) starts ends = Except.ok
      { laps := fb.laps.map (fun p => (jsonLapKey p.1, p.2))
        best_lap := some od.best_lap_number
        best_lap_time := some od.best_lap_time
        best_lap_time_ms := parse_lap_time od.best_lap_time
        total_laps := od.total_laps } := by
    simp only [get_lap_data, hfb, jsonKeys_not_contains_int, Bool.false_eq_true, if_false]
  exact ⟨_, h, rfl, rfl, rfl, rfl⟩

/-- Witness for claim C2: a concrete car with official best lap 7 at
1:38.200 and a fallback data set whose fastest lap is lap 9; the merged
summary carries the official values. -/
theorem claim_C2_witness : ∃ res,
    get_lap_data (some ⟨"1:38.200", 7, 20⟩) [⟨9, 0⟩] [⟨9, 95000⟩] = Except.ok res ∧
    res.best_lap = some 7 ∧
    res.best_lap_time = some "1:38.200" ∧
    res.best_lap_time_ms = parse_lap_time "1:38.200" ∧
    res.total_laps = 20 := by
  have h : get_fallback_lap_data [⟨9, 0⟩] [⟨9, 95000⟩] =
      Except.ok ⟨[(9, fallbackEntry 9 95000)], some 9,
        some (format_lap_time_from_ms 95000), some 95000, 1⟩ := by decide
  exact claim_C2 ⟨"1:38.200", 7, 20⟩ [⟨9, 0⟩] [⟨9, 95000⟩] _ h

/-- Claim C10: whenever the augmentation engine degrades to zero synthetic
records without an error key (no telemetry rows, no official lap times, or
no detected crossings), the augmented-info endpoint responds 500, because
the result dictionary lacks the detected_crossings/aligned_crossings keys
(and, with no telemetry, the ratio computation would divide by zero). -/
theorem claim_C10 (isNear : ℚ → ℚ → Bool) (rows : List PivotRow)
    (official : List OfficialLap) (vid : String)
    (hdeg : rows = [] ∨ official = [] ∨
      detect_start_finish_crossings isNear rows = []) :
    (augment_vehicle_data isNear rows official vid).synthetic_records = 0 ∧
    (augment_vehicle_data isNear rows official vid).error = none ∧
    get_augmented_telemetry_info (augment_vehicle_data isNear rows official vid) =
      500 := by
  by_cases hrows : rows = []
  · simp [augment_vehicle_data, hrows, get_augmented_telemetry_info]
  · by_cases hoff : official = []
    · simp [augment_vehicle_data, hrows, hoff, get_augmented_telemetry_info]
    · have hcs : detect_start_finish_crossings isNear rows = [] := by
        rcases hdeg with h | h | h
        · exact absurd h hrows
        · exact absurd h hoff
        · exact h
      simp [augment_vehicle_data, hrows, hoff, hcs, get_augmented_telemetry_info]

/-- Witness for claim C10: a vehicle with no telemetry rows gets a 500 from
the augmented-info endpoint. -/
theorem claim_C10_witness :
    (augment_vehicle_data (fun _ _ => false) [] [] "GR86-006-7").synthetic_records
      = 0 ∧
    (augment_vehicle_data (fun _ _ => false) [] [] "GR86-006-7").error = none ∧
    get_augmented_telemetry_info
      (augment_vehicle_data (fun _ _ => false) [] [] "GR86-006-7") = 500 :=
  claim_C10 (fun _ _ => false) [] [] "GR86-006-7" (Or.inl rfl)

/-- The last element of a list is a member of it. -/
theorem getLast?_mem_list {α : Type} {l : List α} {a : α}
    (h : l.getLast? = some a) : a ∈ l := by
  rcases List.mem_getLast?_eq_getLast (by simpa [Option.mem_def] using h) with ⟨hne, rfl⟩
  exact List.getLast_mem hne

/-- A built telemetry point certifies the presence of both GPS channels in
its timestamp group, and carries that group's timestamp. -/
theorem buildChunkPoint_channels (t : ℤ) (group : List TeleRow) (p : ChunkPoint)
    (h : buildChunkPoint t group = some p) :
    p.timestamp = t ∧
    (∃ r ∈ group, r.telemetry_name = "VBOX_Lat_Min") ∧
    (∃ r ∈ group, r.telemetry_name = "VBOX_Long_Minutes") := by
  unfold buildChunkPoint at h
  rcases hla : lastValue group "VBOX_Lat_Min" with _ | la
  · rw [hla] at h
    cases hlo : lastValue group "VBOX_Long_Minutes" <;> rw [hlo] at h <;> cases h
  · rcases hlo : lastValue group "VBOX_Long_Minutes" with _ | lo
    · rw [hla, hlo] at h
      cases h
    · rw [hla, hlo] at h
      refine ⟨?_, ?_, ?_⟩
      · rw [← Option.some.injEq] at h
        cases h
        rfl
      · unfold lastValue at hla
        rcases hr : (group.filter
            (fun r => r.telemetry_name = "VBOX_Lat_Min")).getLast? with _ | r
        · rw [hr] at hla
          cases hla
        · have := getLast?_mem_list hr
          rcases List.mem_filter.mp this with ⟨hm, hname⟩
          exact ⟨r, hm, by simpa using hname⟩
      · unfold lastValue at hlo
        rcases hr : (group.filter
            (fun r => r.telemetry_name = "VBOX_Long_Minutes")).getLast? with _ | r
        · rw [hr] at hlo
          cases hlo
        · have := getLast?_mem_list hr
          rcases List.mem_filter.mp this with ⟨hm, hname⟩
          exact ⟨r, hm, by simpa using hname⟩

/-- A timestamp group missing either GPS channel builds no point. -/
theorem buildChunkPoint_none (t : ℤ) (group : List TeleRow)
    (h : (∀ r ∈ group, r.telemetry_name ≠ "VBOX_Lat_Min") ∨
         (∀ r ∈ group, r.telemetry_name ≠ "VBOX_Long_Minutes")) :
    buildChunkPoint t group = none := by
  have key : lastValue group "VBOX_Lat_Min" = none ∨
      lastValue group "VBOX_Long_Minutes" = none := by
    rcases h with h | h
    · left
      unfold lastValue
      rw [List.filter_eq_nil_iff.mpr (by intro r hr; simpa using h r hr)]
      rfl
    · right
      unfold lastValue
      rw [List.filter_eq_nil_iff.mpr (by intro r hr; simpa using h r hr)]
      rfl
  unfold buildChunkPoint
  rcases hla : lastValue group "VBOX_Lat_Min" with _ | la
  · rfl
  · rcases hlo : lastValue group "VBOX_Long_Minutes" with _ | lo
    · rfl
    · rcases key with k | k
      · rw [hla] at k
        cases k
      · rw [hlo] at k
        cases k

/-- Claim C5: every point emitted by the telemetry chunk endpoint comes from
a timestamp at which both GPS channels are present in the source rows; a
timestamp missing either channel never appears in the chunk output; the
single-point endpoint only succeeds with both channels present at the
chosen timestamp, and answers with an error (a 404) when the closest
timestamp misses either channel. -/
theorem claim_C5 :
    (∀ (rows : List TeleRow) (startT endT : Option ℤ) (p : ChunkPoint),
      p ∈ get_telemetry_chunk rows startT endT →
      (∃ r ∈ rows, r.timestamp = p.timestamp ∧ r.telemetry_name = "VBOX_Lat_Min") ∧
      (∃ r ∈ rows, r.timestamp = p.timestamp ∧
        r.telemetry_name = "VBOX_Long_Minutes")) ∧
    (∀ (rows : List TeleRow) (startT endT : Option ℤ) (t : ℤ),
      ((∀ r ∈ rows, r.timestamp = t → r.telemetry_name ≠ "VBOX_Lat_Min") ∨
       (∀ r ∈ rows, r.timestamp = t → r.telemetry_name ≠ "VBOX_Long_Minutes")) →
      ∀ p ∈ get_telemetry_chunk rows startT endT, p.timestamp ≠ t) ∧
    (∀ (rows : List TeleRow) (target : ℤ) (p : ChunkPoint),
      get_position_at_time rows target = Except.ok p →
      (∃ r ∈ rows, r.timestamp = p.timestamp ∧ r.telemetry_name = "VBOX_Lat_Min") ∧
      (∃ r ∈ rows, r.timestamp = p.timestamp ∧
        r.telemetry_name = "VBOX_Long_Minutes")) ∧
    (∀ (rows : List TeleRow) (target t : ℤ),
      minAbsDiffTime rows target = some t →
      ((∀ r ∈ rows, r.timestamp = t → r.telemetry_name ≠ "VBOX_Lat_Min") ∨
       (∀ r ∈ rows, r.timestamp = t → r.telemetry_name ≠ "VBOX_Long_Minutes")) →
      ∃ msg, get_position_at_time rows target = Except.error msg) := by
  have chunkMem : ∀ (rows : List TeleRow) (startT endT : Option ℤ) (p : ChunkPoint),
      p ∈ get_telemetry_chunk rows startT endT →
      (∃ r ∈ rows, r.timestamp = p.timestamp ∧ r.telemetry_name = "VBOX_Lat_Min") ∧
      (∃ r ∈ rows, r.timestamp = p.timestamp ∧
        r.telemetry_name = "VBOX_Long_Minutes") := by
    intro rows startT endT p hp
    unfold get_telemetry_chunk at hp
    rcases List.mem_filterMap.mp hp with ⟨t, _, hbuild⟩
    rcases buildChunkPoint_channels t _ p hbuild with ⟨hts, ⟨r1, hr1, hn1⟩, r2, hr2, hn2⟩
    rcases List.mem_filter.mp hr1 with ⟨hr1f, hts1⟩
    rcases List.mem_filter.mp hr2 with ⟨hr2f, hts2⟩
    rcases List.mem_filter.mp hr1f with ⟨hr1r, _⟩
    rcases List.mem_filter.mp hr2f with ⟨hr2r, _⟩
    subst hts
    exact ⟨⟨r1, hr1r, by simpa using hts1, hn1⟩, ⟨r2, hr2r, by simpa using hts2, hn2⟩⟩
  refine ⟨chunkMem, ?_, ?_, ?_⟩
  · intro rows startT endT t hmiss p hp hpt
    rcases chunkMem rows startT endT p hp with ⟨⟨r1, hr1, hts1, hn1⟩, r2, hr2, hts2, hn2⟩
    rcases hmiss with h | h
    · exact h r1 hr1 (hpt ▸ hts1) hn1
    · exact h r2 hr2 (hpt ▸ hts2) hn2
  · intro rows target p hok
    unfold get_position_at_time at hok
    split at hok
    · cases hok
    · rename_i t hmin
      split at hok
      · cases hok
      · split at hok
        · cases hok
        · rename_i q hbuild
          rw [Except.ok.injEq] at hok
          subst hok
          rcases buildChunkPoint_channels t _ q hbuild with
            ⟨hts, ⟨r1, hr1, hn1⟩, r2, hr2, hn2⟩
          rcases List.mem_filter.mp hr1 with ⟨hr1r, hts1⟩
          rcases List.mem_filter.mp hr2 with ⟨hr2r, hts2⟩
          subst hts
          exact ⟨⟨r1, hr1r, by simpa using hts1, hn1⟩,
            ⟨r2, hr2r, by simpa using hts2, hn2⟩⟩
  · intro rows target t hmin hmiss
    have hgoal : get_position_at_time rows target =
        (if 5000 < |t - target| then
          (Except.error "No data found near timestamp" : Except String ChunkPoint)
        else
          match buildChunkPoint t (rows.filter (fun r => r.timestamp = t)) with
          | none => Except.error "No GPS data at timestamp"
          | some p => Except.ok p) := by
      unfold get_position_at_time
      rw [hmin]
    rw [hgoal]
    by_cases hfar : 5000 < |t - target|
    · exact ⟨_, by rw [if_pos hfar]⟩
    · rw [if_neg hfar]
      have hnone : buildChunkPoint t (rows.filter (fun r => r.timestamp = t)) = none := by
        apply buildChunkPoint_none
        rcases hmiss with h | h
        · exact Or.inl (fun r hr =>
            h r (List.mem_filter.mp hr).1 (by simpa using (List.mem_filter.mp hr).2))
        · exact Or.inr (fun r hr =>
            h r (List.mem_filter.mp hr).1 (by simpa using (List.mem_filter.mp hr).2))
      rw [hnone]
      exact ⟨_, rfl⟩

/-- Witness for claim C5: with a single speed-only row at timestamp 0, no
chunk point carries timestamp 0 and the position endpoint errors. -/
theorem claim_C5_witness :
    (∀ p ∈ get_telemetry_chunk [⟨0, "speed", 1, 1⟩] none none, p.timestamp ≠ 0) ∧
    (∃ msg, get_position_at_time [⟨0, "speed", 1, 1⟩] 0 = Except.error msg) := by
  constructor
  · exact claim_C5.2.1 [⟨0, "speed", 1, 1⟩] none none 0
      (Or.inl (by intro r hr _; rcases List.mem_singleton.mp hr with rfl; simp))
  · exact claim_C5.2.2.2 [⟨0, "speed", 1, 1⟩] 0 0 rfl
      (Or.inl (by intro r hr _; rcases List.mem_singleton.mp hr with rfl; simp))

/-- The marker synthesis is one block of records per aligned crossing: an
optional start marker followed by the completion marker. -/
theorem create_lap_marker_records_eq (aligned : List AlignedCrossing) (vid : String) :
    create_lap_marker_records aligned vid =
      aligned.flatMap (fun c =>
        (if c.crossing.lap_number < 20 then [startMarker vid c] else []) ++
          [completionMarker vid c]) := by
  have aux : ∀ (l : List AlignedCrossing) (acc : List SyntheticRecord),
      l.foldl (fun acc c =>
        (acc ++ (if c.crossing.lap_number < 20 then [startMarker vid c] else [])) ++
          [completionMarker vid c]) acc =
      acc ++ l.flatMap (fun c =>
        (if c.crossing.lap_number < 20 then [startMarker vid c] else []) ++
          [completionMarker vid c]) := by
    intro l
    induction l with
    | nil => simp
    | cons c cs ih =>
      intro acc
      rw [List.foldl_cons, List.flatMap_cons, ih]
      simp [List.append_assoc]
  exact aux aligned []

/-- Claim C7: (general part) for each aligned crossing the synthesis emits
exactly one lap_completion_marker at the official completion time, plus,
exactly when the crossing's lap number is below 20, exactly one
lap_start_marker 100 ms later carrying lap number + 1; (scenario) a stream
whose lap distance drops from 3650 m to 20 m between consecutive rows while
the lap changes from 3 to 4 yields a crossing for lap 4 tagged
lap_distance_reset or lap_change, and with an official lap-4 completion at
time T the synthetic records are exactly one start marker for lap 5 at
T + 100 and one completion marker for lap 4 at T. -/
theorem claim_C7 :
    (∀ (aligned : List AlignedCrossing) (vid : String),
      (create_lap_marker_records aligned vid).filter
          (fun r => r.telemetry_name = "lap_completion_marker") =
        aligned.map (completionMarker vid) ∧
      (create_lap_marker_records aligned vid).filter
          (fun r => r.telemetry_name = "lap_start_marker") =
        (aligned.filter (fun c => c.crossing.lap_number < 20)).map (startMarker vid) ∧
      (∀ c ∈ aligned,
        (completionMarker vid c).timestamp = c.official_completion_time ∧
        (completionMarker vid c).lap = c.crossing.lap_number ∧
        (startMarker vid c).timestamp = c.official_completion_time + 100 ∧
        (startMarker vid c).lap = c.crossing.lap_number + 1)) ∧
    (∀ (isNear : ℚ → ℚ → Bool) (t1 t2 T : ℤ) (la1 lo1 la2 lo2 : ℚ) (vid : String),
      t1 ≤ t2 →
      (∃ c ∈ detect_start_finish_crossings isNear
          [⟨t1, 3, some la1, some lo1, some 3650⟩,
           ⟨t2, 4, some la2, some lo2, some 20⟩],
        c.lap_number = 4 ∧
        (c.detection_method = "lap_distance_reset" ∨
         c.detection_method = "lap_change")) ∧
      create_lap_marker_records
          (align_crossings_with_official_times
            (detect_start_finish_crossings isNear
              [⟨t1, 3, some la1, some lo1, some 3650⟩,
               ⟨t2, 4, some la2, some lo2, some 20⟩])
            [⟨4, T, none, none⟩]) vid =
        [startMarker vid ⟨⟨t2, 4, "lap_change", la2, lo2, 20⟩, T, T - t2, none, none⟩,
         completionMarker vid
           ⟨⟨t2, 4, "lap_change", la2, lo2, 20⟩, T, T - t2, none, none⟩]) := by
  constructor
  · intro aligned vid
    refine ⟨?_, ?_, ?_⟩
    · rw [create_lap_marker_records_eq]
      induction aligned with
      | nil => rfl
      | cons c cs ih =>
        simp only [List.flatMap_cons, List.filter_append, List.map_cons, ih]
        by_cases h : c.crossing.lap_number < 20 <;>
          simp [h, startMarker, completionMarker]
    · rw [create_lap_marker_records_eq]
      induction aligned with
      | nil => rfl
      | cons c cs ih =>
        simp only [List.flatMap_cons, List.filter_append, List.filter_cons, ih]
        by_cases h : c.crossing.lap_number < 20 <;>
          simp [h, startMarker, completionMarker]
    · intro c _
      exact ⟨rfl, rfl, rfl, rfl⟩
  · intro isNear t1 t2 T la1 lo1 la2 lo2 vid ht
    have hsorted : List.insertionSort (fun a b => a.timestamp ≤ b.timestamp)
        [(⟨t1, 3, some la1, some lo1, some 3650⟩ : PivotRow),
         ⟨t2, 4, some la2, some lo2, some 20⟩] =
        [⟨t1, 3, some la1, some lo1, some 3650⟩, ⟨t2, 4, some la2, some lo2, some 20⟩] := by
      simp only [List.insertionSort, List.orderedInsert]
      rw [if_pos ht]
    have hdetect : detect_start_finish_crossings isNear
        [⟨t1, 3, some la1, some lo1, some 3650⟩, ⟨t2, 4, some la2, some lo2, some 20⟩] =
        (if isNear la1 lo1 then
          [⟨t1, 3, "gps_entry", la1, lo1, 3650⟩] else []) ++
          [⟨t2, 4, "lap_change", la2, lo2, 20⟩] := by
      unfold detect_start_finish_crossings
      rw [hsorted]
      simp only [List.foldl_cons, List.foldl_nil, detectStep]
      cases hnear : isNear la1 lo1 <;>
        simp [hnear, show (4 : ℤ) ≠ 3 by decide,
          show (3000 : ℚ) < 3650 by decide, show (20 : ℚ) < 100 by decide]
    refine ⟨⟨⟨t2, 4, "lap_change", la2, lo2, 20⟩, ?_, rfl, Or.inr rfl⟩, ?_⟩
    · rw [hdetect]
      simp
    · rw [hdetect]
      have halign : align_crossings_with_official_times
          ((if isNear la1 lo1 then
            [(⟨t1, 3, "gps_entry", la1, lo1, 3650⟩ : Crossing)] else []) ++
            [⟨t2, 4, "lap_change", la2, lo2, 20⟩])
          [⟨4, T, none, none⟩] =
          [⟨⟨t2, 4, "lap_change", la2, lo2, 20⟩, T, T - t2, none, none⟩] := by
        unfold align_crossings_with_official_times officialByLap
        cases isNear la1 lo1 <;>
          simp [show (3 : ℤ) ≠ 4 by decide, show ((4 : ℤ) = 4) from rfl]
      rw [halign]
      rw [create_lap_marker_records_eq]
      simp [show (4 : ℤ) < 20 by decide]

/-- Witness for claim C7: the scenario instantiated at concrete timestamps
0 and 1000, official completion time 2000 and a trivial GPS predicate. -/
theorem claim_C7_witness :
    (∃ c ∈ detect_start_finish_crossings (fun _ _ => false)
        [⟨0, 3, some 0, some 0, some 3650⟩, ⟨1000, 4, some 0, some 0, some 20⟩],
      c.lap_number = 4 ∧
      (c.detection_method = "lap_distance_reset" ∨
       c.detection_method = "lap_change")) ∧
    create_lap_marker_records
        (align_crossings_with_official_times
          (detect_start_finish_crossings (fun _ _ => false)
            [⟨0, 3, some 0, some 0, some 3650⟩, ⟨1000, 4, some 0, some 0, some 20⟩])
          [⟨4, 2000, none, none⟩]) "GR86-006-7" =
      [startMarker "GR86-006-7"
        ⟨⟨1000, 4, "lap_change", 0, 0, 20⟩, 2000, 2000 - 1000, none, none⟩,
       completionMarker "GR86-006-7"
        ⟨⟨1000, 4, "lap_change", 0, 0, 20⟩, 2000, 2000 - 1000, none, none⟩] :=
  claim_C7.2 (fun _ _ => false) 0 1000 2000 0 0 0 0 "GR86-006-7" (by decide)

instance : IsTotal PositionEntry (fun a b => b.total_distance ≤ a.total_distance) :=
  ⟨fun a b => le_total b.total_distance a.total_distance⟩

instance : IsTrans PositionEntry (fun a b => b.total_distance ≤ a.total_distance) :=
  ⟨fun _ _ _ hab hbc => le_trans hbc hab⟩

/-- Numbering the sorted positions emits consecutive 1-based positions. -/
theorem numberPositions_map_pos (i : ℕ) (l : List PositionEntry) :
    (numberPositions i l).map (fun p => p.race_position) = List.range' i l.length := by
  induction l generalizing i with
  | nil => rfl
  | cons p rest ih => simp [numberPositions, List.range', ih]

/-- Numbering the positions only changes the race_position field. -/
theorem numberPositions_fields (i : ℕ) (l : List PositionEntry) (p : PositionEntry)
    (hp : p ∈ numberPositions i l) :
    ∃ q ∈ l, q.car_number = p.car_number ∧ q.lap = p.lap ∧
      q.lap_distance = p.lap_distance ∧ q.total_distance = p.total_distance := by
  induction l generalizing i with
  | nil => cases hp
  | cons q rest ih =>
    rcases List.mem_cons.mp hp with rfl | hp2
    · exact ⟨q, List.mem_cons_self q rest, rfl, rfl, rfl, rfl⟩
    · rcases ih (i + 1) hp2 with ⟨q0, hq0, h1, h2, h3, h4⟩
      exact ⟨q0, List.mem_cons_of_mem _ hq0, h1, h2, h3, h4⟩

/-- Numbering the positions preserves sortedness by total distance. -/
theorem numberPositions_pairwise (i : ℕ) (l : List PositionEntry)
    (h : l.Pairwise (fun a b => b.total_distance ≤ a.total_distance)) :
    (numberPositions i l).Pairwise (fun a b => b.total_distance ≤ a.total_distance) := by
  induction l generalizing i with
  | nil => exact List.Pairwise.nil
  | cons q rest ih =>
    rcases List.pairwise_cons.mp h with ⟨hq, hrest⟩
    refine List.pairwise_cons.mpr ⟨?_, ih _ hrest⟩
    intro b hb
    rcases numberPositions_fields _ _ _ hb with ⟨q0, hq0, _, _, _, htd⟩
    show b.total_distance ≤ q.total_distance
    rw [← htd]
    exact hq q0 hq0

/-- Claim C4: every returned position entry carries total_distance
= (lap - 1) * 3710 + lap_distance, the positions list is sorted by total
distance descending, race_position is assigned 1-based in that order, and
cars with (lap, lap distance) (3, 100), (2, 3600), (3, 50) get distances
7520, 7310, 7470 and come back ordered car 1, car 3, car 2 with positions
1, 2, 3. -/
theorem claim_C4 :
    (∀ cars : List CarSnapshot, ∀ p ∈ get_race_positions_at_time cars,
      p.total_distance = ((p.lap : ℚ) - 1) * 3710 + p.lap_distance) ∧
    (∀ cars : List CarSnapshot,
      (get_race_positions_at_time cars).Pairwise
        (fun a b => b.total_distance ≤ a.total_distance)) ∧
    (∀ cars : List CarSnapshot,
      (get_race_positions_at_time cars).map (fun p => p.race_position) =
        List.range' 1 cars.length) ∧
    get_race_positions_at_time [⟨1, 3, 100⟩, ⟨2, 2, 3600⟩, ⟨3, 3, 50⟩] =
      [⟨1, 3, 100, 7520, 1⟩, ⟨3, 3, 50, 7470, 2⟩, ⟨2, 2, 3600, 7310, 3⟩] := by
  refine ⟨?_, ?_, ?_, ?_⟩
  · intro cars p hp
    unfold get_race_positions_at_time at hp
    rcases numberPositions_fields _ _ _ hp with ⟨q, hq, _, hlap, hld, htd⟩
    have hq2 := (List.perm_insertionSort
      (fun a b : PositionEntry => b.total_distance ≤ a.total_distance) _).subset hq
    rcases List.mem_map.mp hq2 with ⟨c, _, rfl⟩
    calc p.total_distance
        = ((c.lap : ℚ) - 1) * 3710 + c.lap_distance := htd.symm
      _ = ((p.lap : ℚ) - 1) * 3710 + p.lap_distance := by rw [← hlap, ← hld]
  · intro cars
    unfold get_race_positions_at_time
    exact numberPositions_pairwise _ _
      (List.sorted_insertionSort
        (fun a b : PositionEntry => b.total_distance ≤ a.total_distance) _)
  · intro cars
    unfold get_race_positions_at_time
    rw [numberPositions_map_pos]
    congr 1
    exact ((List.perm_insertionSort _ _).length_eq).trans (by simp)
  · norm_num [get_race_positions_at_time, track_length, List.insertionSort,
      List.orderedInsert, numberPositions]

/-- Witness for claim C4: the distance formula applied to the leading car of
the concrete scenario. -/
theorem claim_C4_witness :
    (⟨1, 3, 100, 7520, 1⟩ : PositionEntry).total_distance =
      (((⟨1, 3, 100, 7520, 1⟩ : PositionEntry).lap : ℚ) - 1) * 3710 +
        (⟨1, 3, 100, 7520, 1⟩ : PositionEntry).lap_distance :=
  claim_C4.1 [⟨1, 3, 100⟩, ⟨2, 2, 3600⟩, ⟨3, 3, 50⟩] ⟨1, 3, 100, 7520, 1⟩
    (by rw [claim_C4.2.2.2]; exact List.mem_cons_self _ _)

/-- The least-squares denominator is positive for at least two lap times:
its index-0 term is the square of the positive x-mean. -/
theorem olsDen_pos (y0 : ℚ) (rest : List ℚ) (h : rest ≠ []) :
    0 < (((y0 :: rest).enum.map
      (fun p => ((p.1 : ℚ) - (((y0 :: rest).length : ℚ) - 1) / 2) ^ 2)).sum) := by
  rw [List.enum_cons, List.map_cons, List.sum_cons]
  have hlen : 1 ≤ rest.length := List.length_pos.mpr h
  have hxm : 0 < (((y0 :: rest).length : ℚ) - 1) / 2 := by
    have h1 : (1 : ℚ) ≤ (rest.length : ℚ) := by exact_mod_cast hlen
    simp only [List.length_cons]
    push_cast
    linarith
  have hne : ((0 : ℕ) : ℚ) - (((y0 :: rest).length : ℚ) - 1) / 2 ≠ 0 := by
    have h2 := ne_of_gt hxm
    intro hc
    apply h2
    push_cast at hc ⊢
    linarith
  have hterm : 0 < (((0 : ℕ) : ℚ) - (((y0 :: rest).length : ℚ) - 1) / 2) ^ 2 := by
    rw [pow_two]
    exact mul_self_pos.mpr hne
  have hrest : 0 ≤ ((List.enumFrom 1 rest).map
      (fun p => ((p.1 : ℚ) - (((y0 :: rest).length : ℚ) - 1) / 2) ^ 2)).sum := by
    apply List.sum_nonneg
    intro x hx
    rcases List.mem_map.mp hx with ⟨p, _, rfl⟩
    positivity
  linarith

/-- Claim C8: analyze_lap_progression computes the degradation rate as the
ordinary-least-squares slope of parsed lap time against 0-based sequence
index (rounded to 6 decimals); the monotonically increasing second-based
sequence 90, 91, 92, 93 gives a strictly positive rate, and the constant
sequence 90, 90, 90, 90 gives rate 0. -/
theorem claim_C8 :
    (∀ col : List (Option String),
      1 < ((col.filterMap id).filterMap parseAnalysisLapTime).length →
      (analyze_lap_progression col).degradation_rate =
        roundTo 6 (olsSlopeSpec ((col.filterMap id).filterMap parseAnalysisLapTime))) ∧
    0 < (analyze_lap_progression
      [some "1:30.000", some "1:31.000", some "1:32.000",
       some "1:33.000"]).degradation_rate ∧
    (analyze_lap_progression
      [some "1:30.000", some "1:30.000", some "1:30.000",
       some "1:30.000"]).degradation_rate = 0 := by
  have p90 : parseAnalysisLapTime "1:30.000" = some (90 : ℚ) := by
    rw [show parseAnalysisLapTime "1:30.000" =
      some (((1 : ℕ) : ℚ) * 60 + ((30000 : ℕ) : ℚ) / ((1000 : ℕ) : ℚ)) from rfl]
    norm_num
  have p91 : parseAnalysisLapTime "1:31.000" = some (91 : ℚ) := by
    rw [show parseAnalysisLapTime "1:31.000" =
      some (((1 : ℕ) : ℚ) * 60 + ((31000 : ℕ) : ℚ) / ((1000 : ℕ) : ℚ)) from rfl]
    norm_num
  have p92 : parseAnalysisLapTime "1:32.000" = some (92 : ℚ) := by
    rw [show parseAnalysisLapTime "1:32.000" =
      some (((1 : ℕ) : ℚ) * 60 + ((32000 : ℕ) : ℚ) / ((1000 : ℕ) : ℚ)) from rfl]
    norm_num
  have p93 : parseAnalysisLapTime "1:33.000" = some (93 : ℚ) := by
    rw [show parseAnalysisLapTime "1:33.000" =
      some (((1 : ℕ) : ℚ) * 60 + ((33000 : ℕ) : ℚ) / ((1000 : ℕ) : ℚ)) from rfl]
    norm_num
  refine ⟨?_, ?_, ?_⟩
  · intro col hlen
    simp only [analyze_lap_progression]
    split
    · rename_i heq
      rw [heq] at hlen
      simp at hlen
    · rename_i y0 rest heq
      rw [heq] at hlen ⊢
      have hrest : rest ≠ [] := by
        intro hr
        rw [hr] at hlen
        simp at hlen
      have hden := olsDen_pos y0 rest hrest
      simp only
      rw [if_pos (by simpa using hlen), if_pos (ne_of_gt hden)]
      unfold olsSlopeSpec
      rfl
  · have hlist : (([some "1:30.000", some "1:31.000", some "1:32.000",
        some "1:33.000"].filterMap id).filterMap parseAnalysisLapTime) =
        [(90 : ℚ), 91, 92, 93] := by
      simp [p90, p91, p92, p93]
    simp only [analyze_lap_progression]
    rw [hlist]
    norm_num [List.enum, List.enumFrom, roundTo, rheQ]
  · have hlist : (([some "1:30.000", some "1:30.000", some "1:30.000",
        some "1:30.000"].filterMap id).filterMap parseAnalysisLapTime) =
        [(90 : ℚ), 90, 90, 90] := by
      simp [p90]
    simp only [analyze_lap_progression]
    rw [hlist]
    norm_num [List.enum, List.enumFrom, roundTo, rheQ]

/-- Witness for claim C8: the degradation rate of the increasing sequence
equals the rounded least-squares slope of its parsed lap times. -/
theorem claim_C8_witness :
    (analyze_lap_progression
      [some "1:30.000", some "1:31.000", some "1:32.000",
       some "1:33.000"]).degradation_rate =
      roundTo 6 (olsSlopeSpec
        (([some "1:30.000", some "1:31.000", some "1:32.000",
           some "1:33.000"].filterMap id).filterMap parseAnalysisLapTime)) :=
  claim_C8.1 [some "1:30.000", some "1:31.000", some "1:32.000", some "1:33.000"]
    (by decide)


/-! ## Rounding lemmas for the dyadic model -/

theorem rheDiv_def (a : ℤ) (b : ℕ) :
    rheDiv a b = if 2 * (a % (b : ℤ)) < (b : ℤ) then a / (b : ℤ)
      else if (b : ℤ) < 2 * (a % (b : ℤ)) then a / (b : ℤ) + 1
      else if (a / (b : ℤ)) % 2 = 0 then a / (b : ℤ) else a / (b : ℤ) + 1 := rfl

theorem rheDiv_nonneg (a : ℤ) (b : ℕ) (ha : 0 ≤ a) : 0 ≤ rheDiv a b := by
  have hq : 0 ≤ a / (b : ℤ) := Int.ediv_nonneg ha (by positivity)
  rw [rheDiv_def]
  split
  · exact hq
  · split
    · omega
    · split
      · exact hq
      · omega

theorem abs_rheDiv_sub (a : ℤ) (b : ℕ) (hb : 0 < b) :
    |(rheDiv a b : ℚ) - (a : ℚ) / (b : ℚ)| ≤ 1 / 2 := by
  have hbQ : (0 : ℚ) < (b : ℚ) := by exact_mod_cast hb
  have hbZ : (0 : ℤ) < (b : ℤ) := by exact_mod_cast hb
  have hmod : a % (b : ℤ) < (b : ℤ) := Int.emod_lt_of_pos a hbZ
  have hmod0 : 0 ≤ a % (b : ℤ) := Int.emod_nonneg a (by omega)
  have hdecomp : (b : ℤ) * (a / (b : ℤ)) + a % (b : ℤ) = a := Int.ediv_add_emod a (b : ℤ)
  have haQ : (a : ℚ) = (b : ℚ) * ((a / (b : ℤ) : ℤ) : ℚ) + ((a % (b : ℤ) : ℤ) : ℚ) := by
    exact_mod_cast hdecomp.symm
  have hval : (a : ℚ) / (b : ℚ) = ((a / (b : ℤ) : ℤ) : ℚ) + ((a % (b : ℤ) : ℤ) : ℚ) / (b : ℚ) := by
    rw [haQ, add_div, mul_div_cancel_left₀ _ hbQ.ne']
  have hr0 : (0 : ℚ) ≤ ((a % (b : ℤ) : ℤ) : ℚ) := by exact_mod_cast hmod0
  have hrb : ((a % (b : ℤ) : ℤ) : ℚ) < (b : ℚ) := by exact_mod_cast hmod
  rw [rheDiv_def]
  split
  · rename_i h
    have h2 : (2 : ℚ) * ((a % (b : ℤ) : ℤ) : ℚ) < (b : ℚ) := by exact_mod_cast h
    have hhalf : ((a % (b : ℤ) : ℤ) : ℚ) / (b : ℚ) ≤ 1 / 2 := by
      rw [div_le_div_iff₀ hbQ (by norm_num)]
      linarith
    have hpos : (0 : ℚ) ≤ ((a % (b : ℤ) : ℤ) : ℚ) / (b : ℚ) := by positivity
    rw [hval, abs_le]
    constructor <;> linarith
  · split
    · rename_i h1 h2
      have h2Q : (b : ℚ) < 2 * ((a % (b : ℤ) : ℤ) : ℚ) := by exact_mod_cast h2
      have hone : ((a % (b : ℤ) : ℤ) : ℚ) / (b : ℚ) ≤ 1 := by
        rw [div_le_one hbQ]; linarith
      have hhalf : 1 / 2 ≤ ((a % (b : ℤ) : ℤ) : ℚ) / (b : ℚ) := by
        rw [div_le_div_iff₀ (by norm_num) hbQ]
        linarith
      rw [hval, abs_le]
      push_cast
      constructor <;> linarith
    · rename_i h1 h2
      have htie : 2 * (a % (b : ℤ)) = (b : ℤ) := by omega
      have htieQ : ((a % (b : ℤ) : ℤ) : ℚ) / (b : ℚ) = 1 / 2 := by
        have hbr : (b : ℚ) = 2 * ((a % (b : ℤ) : ℤ) : ℚ) := by exact_mod_cast htie.symm
        rw [hbr, div_eq_iff (by rw [← hbr]; exact hbQ.ne')]
        ring
      split
      · rw [hval, htieQ, abs_le]
        constructor <;> linarith
      · rw [hval, htieQ, abs_le]
        push_cast
        constructor <;> linarith

theorem rheDiv_eq_of_abs_lt (a : ℤ) (b : ℕ) (z : ℤ) (hb : 0 < b)
    (h : |(a : ℚ) / (b : ℚ) - (z : ℚ)| < 1 / 2) : rheDiv a b = z := by
  have h1 := abs_rheDiv_sub a b hb
  have htri : |(rheDiv a b : ℚ) - (z : ℚ)| ≤
      |(rheDiv a b : ℚ) - (a : ℚ) / (b : ℚ)| + |(a : ℚ) / (b : ℚ) - (z : ℚ)| :=
    abs_sub_le _ _ _
  have h2 : |(rheDiv a b : ℚ) - (z : ℚ)| < 1 := by linarith
  have h3 : |((rheDiv a b - z : ℤ) : ℚ)| < 1 := by push_cast; exact h2
  have h4 : ((|rheDiv a b - z| : ℤ) : ℚ) < 1 := by rw [Int.cast_abs]; exact h3
  have h5 : |rheDiv a b - z| < 1 := by exact_mod_cast h4
  rw [abs_lt] at h5
  omega

theorem rheDiv_exact (b : ℕ) (z : ℤ) (hb : 0 < b) : rheDiv (z * b) b = z := by
  apply rheDiv_eq_of_abs_lt _ _ _ hb
  have hbQ : ((b : ℚ)) ≠ 0 := by positivity
  rw [show ((z * (b : ℤ) : ℤ) : ℚ) = (z : ℚ) * (b : ℚ) by push_cast; ring,
    mul_div_assoc, div_self hbQ, mul_one, sub_self, abs_zero]
  norm_num

theorem cast_two_pow (k : ℕ) : ((2 ^ k : ℕ) : ℚ) = (2 : ℚ) ^ (k : ℤ) := by
  push_cast
  rw [zpow_natCast]

theorem bitLenAux_zero (f : ℕ) : bitLenAux f 0 = 0 := by
  cases f <;> simp [bitLenAux]

theorem bitLenAux_pos (f n : ℕ) (hn : n ≠ 0) (h : n ≤ f) : 0 < bitLenAux f n := by
  cases f with
  | zero => omega
  | succ f => simp [bitLenAux, hn]

theorem bitLenAux_lt (f : ℕ) : ∀ n : ℕ, n ≤ f → n < 2 ^ bitLenAux f n := by
  induction f with
  | zero => intro n h; interval_cases n; simp [bitLenAux]
  | succ f ih =>
    intro n h
    by_cases hn : n = 0
    · subst hn; simp [bitLenAux]
    · have hrec : n / 2 ≤ f := by omega
      have := ih (n / 2) hrec
      have hstep : bitLenAux (f + 1) n = bitLenAux f (n / 2) + 1 := by
        simp [bitLenAux, hn]
      rw [hstep, pow_succ]
      omega

theorem bitLenAux_le (f : ℕ) : ∀ n : ℕ, n ≠ 0 → n ≤ f → 2 ^ (bitLenAux f n - 1) ≤ n := by
  induction f with
  | zero => intro n hn h; omega
  | succ f ih =>
    intro n hn h
    have hstep : bitLenAux (f + 1) n = bitLenAux f (n / 2) + 1 := by
      simp [bitLenAux, hn]
    rw [hstep]
    by_cases h2 : n / 2 = 0
    · rw [h2, bitLenAux_zero]
      simpa using Nat.one_le_iff_ne_zero.mpr hn
    · have hrec : n / 2 ≤ f := by omega
      have hlow := ih (n / 2) h2 hrec
      have hpos : 0 < bitLenAux f (n / 2) := bitLenAux_pos f (n / 2) h2 hrec
      have hexp : bitLenAux f (n / 2) + 1 - 1 = (bitLenAux f (n / 2) - 1) + 1 := by omega
      rw [hexp, pow_succ]
      omega

theorem natBitLen_lt (n : ℕ) : n < 2 ^ natBitLen n := bitLenAux_lt n n le_rfl

theorem natBitLen_le (n : ℕ) (hn : n ≠ 0) : 2 ^ (natBitLen n - 1) ≤ n :=
  bitLenAux_le n n hn le_rfl

theorem natBitLen_pos (n : ℕ) (hn : n ≠ 0) : 0 < natBitLen n :=
  bitLenAux_pos n n hn le_rfl

theorem natBitLen_le_iff (n k : ℕ) : natBitLen n ≤ k ↔ n < 2 ^ k := by
  constructor
  · intro h
    exact lt_of_lt_of_le (natBitLen_lt n) (Nat.pow_le_pow_right (by norm_num) h)
  · intro h
    by_contra hc
    push_neg at hc
    have hn : n ≠ 0 := by
      intro h0
      subst h0
      simp [natBitLen, bitLenAux_zero] at hc
    have h1 : 2 ^ (natBitLen n - 1) ≤ n := natBitLen_le n hn
    have h2 : 2 ^ k ≤ 2 ^ (natBitLen n - 1) := Nat.pow_le_pow_right (by norm_num) (by omega)
    omega

theorem two_zpow_pos (x : ℤ) : (0 : ℚ) < (2 : ℚ) ^ x := zpow_pos (by norm_num) x

theorem two_zpow_add (x y : ℤ) : (2 : ℚ) ^ x * (2 : ℚ) ^ y = (2 : ℚ) ^ (x + y) :=
  (zpow_add₀ (by norm_num) x y).symm

theorem abs_int_cast_q (a : ℤ) : ((a.natAbs : ℕ) : ℚ) = |(a : ℚ)| := by
  rw [Int.cast_natAbs, Int.cast_abs]

theorem sigBits_le_iff (a : ℤ) (k : ℕ) : sigBits a ≤ k ↔ a.natAbs < 2 ^ k :=
  natBitLen_le_iff a.natAbs k

theorem roundSig_exact (a e : ℤ) (h : a.natAbs < 2 ^ 53) : roundSig a e = ⟨a, e⟩ := by
  unfold roundSig
  rw [if_pos ((sigBits_le_iff a 53).mpr h)]

theorem roundSig_m_nonneg (a e : ℤ) (ha : 0 ≤ a) : 0 ≤ (roundSig a e).m := by
  unfold roundSig
  split
  · exact ha
  · exact rheDiv_nonneg _ _ ha

theorem abs_roundSig_sub (a e : ℤ) :
    |(roundSig a e).toRat - (a : ℚ) * (2 : ℚ) ^ e| ≤ |(a : ℚ)| * (2 : ℚ) ^ e / 2 ^ (53 : ℕ) := by
  unfold roundSig
  split
  · rename_i h
    simp [Dy.toRat]
    positivity
  · rename_i h
    push_neg at h
    set d : ℕ := sigBits a - 53 with hd
    have hd1 : 1 ≤ d := by omega
    have hsig : sigBits a = 53 + d := by omega
    have ha0 : a.natAbs ≠ 0 := by
      intro h0
      have : sigBits a = 0 := by
        unfold sigBits
        rw [h0, natBitLen, bitLenAux_zero]
      omega
    rw [show e + ((sigBits a : ℤ) - 53) = e + (d : ℤ) by omega]
    have hb : (0 : ℕ) < 2 ^ d := Nat.pos_pow_of_pos d (by norm_num)
    have habs := abs_rheDiv_sub a (2 ^ d) hb
    rw [cast_two_pow] at habs
    have hlow : (2 : ℚ) ^ ((52 + d : ℕ) : ℤ) ≤ |(a : ℚ)| := by
      rw [← abs_int_cast_q, ← cast_two_pow]
      have h2 := natBitLen_le a.natAbs ha0
      rw [show natBitLen a.natAbs - 1 = 52 + d by unfold sigBits at hsig; omega] at h2
      exact_mod_cast h2
    have key : (a : ℚ) / (2 : ℚ) ^ (d : ℤ) * (2 : ℚ) ^ (e + (d : ℤ)) = (a : ℚ) * (2 : ℚ) ^ e := by
      rw [div_mul_eq_mul_div, mul_div_assoc, ← zpow_sub₀ (by norm_num : (2 : ℚ) ≠ 0)]
      rw [show e + (d : ℤ) - (d : ℤ) = e by ring]
    have hval : (Dy.toRat ⟨rheDiv a (2 ^ d), e + (d : ℤ)⟩) - (a : ℚ) * (2 : ℚ) ^ e
        = ((rheDiv a (2 ^ d) : ℚ) - (a : ℚ) / (2 : ℚ) ^ (d : ℤ)) * (2 : ℚ) ^ (e + (d : ℤ)) := by
      dsimp only [Dy.toRat]
      rw [sub_mul, key]
    have hestep : (2 : ℚ) ^ ((52 + d : ℕ) : ℤ) * (2 : ℚ) ^ e / 2 ^ (53 : ℕ)
        = (1 / 2) * (2 : ℚ) ^ (e + (d : ℤ)) := by
      rw [← zpow_natCast (2 : ℚ) 53, two_zpow_add, ← zpow_sub₀ (by norm_num : (2 : ℚ) ≠ 0)]
      rw [show ((52 + d : ℕ) : ℤ) + e - ((53 : ℕ) : ℤ) = (e + (d : ℤ)) + (-1) by push_cast; ring]
      rw [← two_zpow_add]
      rw [show ((2 : ℚ) ^ (-1 : ℤ)) = 1 / 2 by norm_num]
      ring
    calc |(Dy.toRat ⟨rheDiv a (2 ^ d), e + (d : ℤ)⟩) - (a : ℚ) * (2 : ℚ) ^ e|
        = |(rheDiv a (2 ^ d) : ℚ) - (a : ℚ) / (2 : ℚ) ^ (d : ℤ)| * (2 : ℚ) ^ (e + (d : ℤ)) := by
          rw [hval, abs_mul, abs_of_pos (two_zpow_pos _)]
      _ ≤ (1 / 2) * (2 : ℚ) ^ (e + (d : ℤ)) :=
          mul_le_mul_of_nonneg_right habs (le_of_lt (two_zpow_pos _))
      _ = (2 : ℚ) ^ ((52 + d : ℕ) : ℤ) * (2 : ℚ) ^ e / 2 ^ (53 : ℕ) := hestep.symm
      _ ≤ |(a : ℚ)| * (2 : ℚ) ^ e / 2 ^ (53 : ℕ) := by gcongr

theorem npow_toNat (k : ℤ) (hk : 0 ≤ k) : (2 : ℚ) ^ k.toNat = (2 : ℚ) ^ k := by
  rw [← zpow_natCast, Int.toNat_of_nonneg hk]

theorem toRat_int (z : ℤ) : (Dy.mk z 0).toRat = (z : ℚ) := by
  simp [Dy.toRat]

theorem toRat_nonneg (x : Dy) (h : 0 ≤ x.m) : 0 ≤ x.toRat :=
  mul_nonneg (by exact_mod_cast h) (le_of_lt (two_zpow_pos x.e))

theorem abs_addDy_sub (x y : Dy) :
    |(addDy x y).toRat - (x.toRat + y.toRat)| ≤ |x.toRat + y.toRat| / 2 ^ (53 : ℕ) := by
  unfold addDy
  set e := min x.e y.e with he
  have hx : e ≤ x.e := min_le_left _ _
  have hy : e ≤ y.e := min_le_right _ _
  have hsum : ((x.m * 2 ^ (x.e - e).toNat + y.m * 2 ^ (y.e - e).toNat : ℤ) : ℚ) * (2 : ℚ) ^ e
      = x.toRat + y.toRat := by
    unfold Dy.toRat
    push_cast
    rw [add_mul, mul_assoc, mul_assoc, npow_toNat (x.e - e) (by omega),
      npow_toNat (y.e - e) (by omega), two_zpow_add, two_zpow_add,
      show x.e - e + e = x.e by ring, show y.e - e + e = y.e by ring]
  have h := abs_roundSig_sub (x.m * 2 ^ (x.e - e).toNat + y.m * 2 ^ (y.e - e).toNat) e
  have habs2 : |((x.m * 2 ^ (x.e - e).toNat + y.m * 2 ^ (y.e - e).toNat : ℤ) : ℚ)| * (2 : ℚ) ^ e
      = |((x.m * 2 ^ (x.e - e).toNat + y.m * 2 ^ (y.e - e).toNat : ℤ) : ℚ) * (2 : ℚ) ^ e| := by
    rw [abs_mul, abs_of_pos (two_zpow_pos e)]
  rw [habs2, hsum] at h
  exact h

theorem abs_mulDyInt_sub (x : Dy) (k : ℤ) :
    |(mulDyInt x k).toRat - x.toRat * (k : ℚ)| ≤ |x.toRat * (k : ℚ)| / 2 ^ (53 : ℕ) := by
  unfold mulDyInt
  have hsum : ((x.m * k : ℤ) : ℚ) * (2 : ℚ) ^ x.e = x.toRat * (k : ℚ) := by
    unfold Dy.toRat
    push_cast
    ring
  have h := abs_roundSig_sub (x.m * k) x.e
  have habs2 : |((x.m * k : ℤ) : ℚ)| * (2 : ℚ) ^ x.e
      = |((x.m * k : ℤ) : ℚ) * (2 : ℚ) ^ x.e| := by
    rw [abs_mul, abs_of_pos (two_zpow_pos x.e)]
  rw [habs2, hsum] at h
  exact h

theorem intToDy_eq (z : ℤ) (h : z.natAbs < 2 ^ 53) : intToDy z = ⟨z, 0⟩ :=
  roundSig_exact z 0 h

theorem addDy_m_nonneg (x y : Dy) (hx : 0 ≤ x.m) (hy : 0 ≤ y.m) : 0 ≤ (addDy x y).m := by
  unfold addDy
  exact roundSig_m_nonneg _ _ (by positivity)

theorem mulDyInt_m_nonneg (x : Dy) (k : ℤ) (hx : 0 ≤ x.m) (hk : 0 ≤ k) :
    0 ≤ (mulDyInt x k).m := by
  unfold mulDyInt
  exact roundSig_m_nonneg _ _ (by positivity)

theorem le2_iff (d : ℤ) (a b : ℕ) (hb : 0 < b) :
    le2 d a b = true ↔ (2 : ℚ) ^ d * (b : ℚ) ≤ (a : ℚ) := by
  unfold le2
  split
  · rename_i hd
    simp only [decide_eq_true_eq]
    rw [← npow_toNat d hd]
    constructor <;> intro h <;> exact_mod_cast h
  · rename_i hd
    simp only [decide_eq_true_eq]
    have hd' : (0 : ℤ) ≤ -d := by omega
    have ht : (2 : ℚ) ^ d = ((2 : ℚ) ^ (-d).toNat)⁻¹ := by
      rw [npow_toNat _ hd', ← zpow_neg, neg_neg]
    have htpos : (0 : ℚ) < (2 : ℚ) ^ (-d).toNat := by positivity
    rw [ht, inv_mul_le_iff₀ htpos]
    constructor <;> intro h <;> exact_mod_cast h

theorem flDivExp_def (a : ℤ) (b : ℕ) :
    flDivExp a b = if le2 ((natBitLen a.natAbs : ℤ) - (natBitLen b : ℤ)) a.natAbs b
      then (natBitLen a.natAbs : ℤ) - (natBitLen b : ℤ)
      else (natBitLen a.natAbs : ℤ) - (natBitLen b : ℤ) - 1 := rfl

theorem flDivExp_spec (a : ℤ) (b : ℕ) (ha : a ≠ 0) (hb : 0 < b) :
    (2 : ℚ) ^ flDivExp a b * (b : ℚ) ≤ |(a : ℚ)| ∧
      |(a : ℚ)| < (2 : ℚ) ^ (flDivExp a b + 1) * (b : ℚ) := by
  have ha0 : a.natAbs ≠ 0 := by
    intro h0
    exact ha (Int.natAbs_eq_zero.mp h0)
  have hLa1 : 0 < natBitLen a.natAbs := natBitLen_pos _ ha0
  have hLb1 : 0 < natBitLen b := natBitLen_pos _ (by omega)
  have hA1 : |(a : ℚ)| < (2 : ℚ) ^ ((natBitLen a.natAbs : ℕ) : ℤ) := by
    rw [← abs_int_cast_q, ← cast_two_pow]
    exact_mod_cast natBitLen_lt a.natAbs
  have hA2 : (2 : ℚ) ^ ((natBitLen a.natAbs : ℤ) - 1) ≤ |(a : ℚ)| := by
    rw [← abs_int_cast_q, show (natBitLen a.natAbs : ℤ) - 1 = ((natBitLen a.natAbs - 1 : ℕ) : ℤ) by
      omega, ← cast_two_pow]
    exact_mod_cast natBitLen_le a.natAbs ha0
  have hB1 : (b : ℚ) < (2 : ℚ) ^ ((natBitLen b : ℕ) : ℤ) := by
    rw [← cast_two_pow]
    exact_mod_cast natBitLen_lt b
  have hB2 : (2 : ℚ) ^ ((natBitLen b : ℤ) - 1) ≤ (b : ℚ) := by
    rw [show (natBitLen b : ℤ) - 1 = ((natBitLen b - 1 : ℕ) : ℤ) by omega, ← cast_two_pow]
    exact_mod_cast natBitLen_le b (by omega)
  rw [flDivExp_def]
  split
  · rename_i hle
    have hlow := (le2_iff _ a.natAbs b hb).mp hle
    rw [abs_int_cast_q] at hlow
    refine ⟨hlow, ?_⟩
    calc |(a : ℚ)| < (2 : ℚ) ^ ((natBitLen a.natAbs : ℕ) : ℤ) := hA1
      _ = (2 : ℚ) ^ ((natBitLen a.natAbs : ℤ) - (natBitLen b : ℤ) + 1)
          * (2 : ℚ) ^ ((natBitLen b : ℤ) - 1) := by
          rw [two_zpow_add]
          congr 1
          ring
      _ ≤ (2 : ℚ) ^ ((natBitLen a.natAbs : ℤ) - (natBitLen b : ℤ) + 1) * (b : ℚ) := by
          exact mul_le_mul_of_nonneg_left hB2 (le_of_lt (two_zpow_pos _))
  · rename_i hle
    have hup : ¬ ((2 : ℚ) ^ ((natBitLen a.natAbs : ℤ) - (natBitLen b : ℤ)) * (b : ℚ)
        ≤ (a.natAbs : ℚ)) := by
      intro hc
      exact hle ((le2_iff _ a.natAbs b hb).mpr hc)
    push_neg at hup
    rw [abs_int_cast_q] at hup
    constructor
    · refine le_of_lt ?_
      calc (2 : ℚ) ^ ((natBitLen a.natAbs : ℤ) - (natBitLen b : ℤ) - 1) * (b : ℚ)
          < (2 : ℚ) ^ ((natBitLen a.natAbs : ℤ) - (natBitLen b : ℤ) - 1)
            * (2 : ℚ) ^ ((natBitLen b : ℕ) : ℤ) :=
            mul_lt_mul_of_pos_left hB1 (two_zpow_pos _)
        _ = (2 : ℚ) ^ ((natBitLen a.natAbs : ℤ) - 1) := by
            rw [two_zpow_add]
            congr 1
            ring
        _ ≤ |(a : ℚ)| := hA2
    · rw [show (natBitLen a.natAbs : ℤ) - (natBitLen b : ℤ) - 1 + 1
          = (natBitLen a.natAbs : ℤ) - (natBitLen b : ℤ) by ring]
      exact hup

theorem flDiv_def (a : ℤ) (b : ℕ) :
    flDiv a b = if a = 0 then ⟨0, 0⟩ else
      ⟨if 0 ≤ 52 - flDivExp a b then rheDiv (a * 2 ^ (52 - flDivExp a b).toNat) b
        else rheDiv a (b * 2 ^ (flDivExp a b - 52).toNat), flDivExp a b - 52⟩ := rfl

theorem abs_flDiv_sub (a : ℤ) (b : ℕ) (hb : 0 < b) :
    |(flDiv a b).toRat - (a : ℚ) / (b : ℚ)| ≤ (|(a : ℚ)| / (b : ℚ)) / 2 ^ (53 : ℕ) := by
  by_cases ha : a = 0
  · subst ha
    rw [flDiv_def]
    simp [Dy.toRat]
  · rw [flDiv_def, if_neg ha]
    set E := flDivExp a b with hE
    obtain ⟨hE1, hE2⟩ := flDivExp_spec a b ha hb
    have hbQ : (0 : ℚ) < (b : ℚ) := by exact_mod_cast hb
    have hfinal : (1 / 2) * (2 : ℚ) ^ (E - 52) ≤ (|(a : ℚ)| / (b : ℚ)) / 2 ^ (53 : ℕ) := by
      have h1 : (2 : ℚ) ^ E ≤ |(a : ℚ)| / (b : ℚ) := by
        rw [le_div_iff₀ hbQ]
        exact hE1
      calc (1 / 2) * (2 : ℚ) ^ (E - 52)
          = (2 : ℚ) ^ E / 2 ^ (53 : ℕ) := by
            rw [show (1 : ℚ) / 2 = (2 : ℚ) ^ (-1 : ℤ) by norm_num, two_zpow_add,
              show ((2 : ℚ) ^ (53 : ℕ)) = (2 : ℚ) ^ ((53 : ℕ) : ℤ) from (zpow_natCast 2 53).symm,
              div_eq_mul_inv ((2 : ℚ) ^ E), ← zpow_neg, two_zpow_add]
            congr 1
            omega
        _ ≤ (|(a : ℚ)| / (b : ℚ)) / 2 ^ (53 : ℕ) := by gcongr
    split
    · rename_i hcase
      set k : ℕ := (52 - E).toNat with hk
      have hkZ : (k : ℤ) = 52 - E := Int.toNat_of_nonneg hcase
      have habs := abs_rheDiv_sub (a * 2 ^ k) b hb
      have hkey : ((a * 2 ^ k : ℤ) : ℚ) / (b : ℚ) * (2 : ℚ) ^ (E - 52) = (a : ℚ) / (b : ℚ) := by
        push_cast
        rw [show ((2 : ℚ) ^ (k : ℕ)) = (2 : ℚ) ^ ((k : ℕ) : ℤ) from (zpow_natCast 2 k).symm, hkZ,
          div_mul_eq_mul_div, mul_assoc, two_zpow_add,
          show 52 - E + (E - 52) = 0 by ring, zpow_zero, mul_one]
      have hval : Dy.toRat ⟨rheDiv (a * 2 ^ k) b, E - 52⟩ - (a : ℚ) / (b : ℚ)
          = ((rheDiv (a * 2 ^ k) b : ℚ) - ((a * 2 ^ k : ℤ) : ℚ) / (b : ℚ)) * (2 : ℚ) ^ (E - 52) := by
        dsimp only [Dy.toRat]
        rw [sub_mul, hkey]
      calc |Dy.toRat ⟨rheDiv (a * 2 ^ k) b, E - 52⟩ - (a : ℚ) / (b : ℚ)|
          = |(rheDiv (a * 2 ^ k) b : ℚ) - ((a * 2 ^ k : ℤ) : ℚ) / (b : ℚ)| * (2 : ℚ) ^ (E - 52) := by
            rw [hval, abs_mul, abs_of_pos (two_zpow_pos _)]
        _ ≤ (1 / 2) * (2 : ℚ) ^ (E - 52) :=
            mul_le_mul_of_nonneg_right habs (le_of_lt (two_zpow_pos _))
        _ ≤ (|(a : ℚ)| / (b : ℚ)) / 2 ^ (53 : ℕ) := hfinal
    · rename_i hcase
      push_neg at hcase
      set k : ℕ := (E - 52).toNat with hk
      have hkZ : (k : ℤ) = E - 52 := Int.toNat_of_nonneg (by omega)
      have hBpos : 0 < b * 2 ^ k := by positivity
      have habs := abs_rheDiv_sub a (b * 2 ^ k) hBpos
      have hkey : (a : ℚ) / ((b * 2 ^ k : ℕ) : ℚ) * (2 : ℚ) ^ (E - 52) = (a : ℚ) / (b : ℚ) := by
        push_cast
        rw [show ((2 : ℚ) ^ (k : ℕ)) = (2 : ℚ) ^ ((k : ℕ) : ℤ) from (zpow_natCast 2 k).symm, hkZ,
          ← div_div, div_eq_mul_inv ((a : ℚ) / (b : ℚ)), ← zpow_neg, mul_assoc, two_zpow_add,
          show -(E - 52) + (E - 52) = 0 by ring, zpow_zero, mul_one]
      have hval : Dy.toRat ⟨rheDiv a (b * 2 ^ k), E - 52⟩ - (a : ℚ) / (b : ℚ)
          = ((rheDiv a (b * 2 ^ k) : ℚ) - (a : ℚ) / ((b * 2 ^ k : ℕ) : ℚ)) * (2 : ℚ) ^ (E - 52) := by
        dsimp only [Dy.toRat]
        rw [sub_mul, hkey]
      calc |Dy.toRat ⟨rheDiv a (b * 2 ^ k), E - 52⟩ - (a : ℚ) / (b : ℚ)|
          = |(rheDiv a (b * 2 ^ k) : ℚ) - (a : ℚ) / ((b * 2 ^ k : ℕ) : ℚ)| * (2 : ℚ) ^ (E - 52) := by
            rw [hval, abs_mul, abs_of_pos (two_zpow_pos _)]
        _ ≤ (1 / 2) * (2 : ℚ) ^ (E - 52) :=
            mul_le_mul_of_nonneg_right habs (le_of_lt (two_zpow_pos _))
        _ ≤ (|(a : ℚ)| / (b : ℚ)) / 2 ^ (53 : ℕ) := hfinal

theorem flDiv_m_nonneg (a : ℤ) (b : ℕ) (ha : 0 ≤ a) : 0 ≤ (flDiv a b).m := by
  rw [flDiv_def]
  split
  · exact le_refl 0
  · split
    · exact rheDiv_nonneg _ _ (by positivity)
    · exact rheDiv_nonneg _ _ ha

theorem flDiv_int (z : ℤ) (b : ℕ) (hb : 0 < b) (hz : 0 < z) (hlt : z < 2 ^ 53) :
    (flDiv (z * (b : ℤ)) b).toRat = (z : ℚ) := by
  have hbQ : (0 : ℚ) < (b : ℚ) := by exact_mod_cast hb
  have ha : z * (b : ℤ) ≠ 0 := by positivity
  set E := flDivExp (z * (b : ℤ)) b with hE
  obtain ⟨hE1, hE2⟩ := flDivExp_spec (z * (b : ℤ)) b ha hb
  have habs : |((z * (b : ℤ) : ℤ) : ℚ)| = (z : ℚ) * (b : ℚ) := by
    rw [abs_of_pos (by push_cast; positivity)]
    push_cast
    ring
  rw [habs] at hE1 hE2
  have hzb : (2 : ℚ) ^ E ≤ (z : ℚ) := by
    have := mul_le_mul_of_nonneg_right hE1 (le_of_lt (inv_pos.mpr hbQ))
    rwa [mul_assoc, mul_inv_cancel₀ hbQ.ne', mul_one, mul_assoc, mul_inv_cancel₀ hbQ.ne',
      mul_one] at this
  have hEle : 0 ≤ 52 - E := by
    by_contra hc
    push_neg at hc
    have h53 : (53 : ℤ) ≤ E := by omega
    have : (2 : ℚ) ^ (53 : ℤ) ≤ (2 : ℚ) ^ E := by
      exact zpow_le_zpow_right₀ (by norm_num) h53
    have hzQ : (z : ℚ) < (2 : ℚ) ^ (53 : ℤ) := by
      rw [show ((53 : ℤ)) = ((53 : ℕ) : ℤ) by norm_num, ← cast_two_pow]
      exact_mod_cast hlt
    linarith
  rw [flDiv_def, if_neg ha]
  rw [if_pos hEle]
  set k : ℕ := (52 - E).toNat with hk
  have hkZ : (k : ℤ) = 52 - E := Int.toNat_of_nonneg hEle
  have hfact : z * (b : ℤ) * 2 ^ k = (z * 2 ^ k) * (b : ℤ) := by ring
  rw [hfact, rheDiv_exact b (z * 2 ^ k) hb]
  dsimp only [Dy.toRat]
  push_cast
  rw [show ((2 : ℚ) ^ (k : ℕ)) = (2 : ℚ) ^ ((k : ℕ) : ℤ) from (zpow_natCast 2 k).symm, hkZ,
    mul_assoc, two_zpow_add, show 52 - E + (E - 52) = 0 by ring, zpow_zero, mul_one]

theorem toRat_neg_exp (x : Dy) (he : x.e < 0) :
    x.toRat = (x.m : ℚ) / ((2 ^ (-x.e).toNat : ℕ) : ℚ) := by
  unfold Dy.toRat
  push_cast
  rw [npow_toNat (-x.e) (by omega), zpow_neg, div_eq_mul_inv, inv_inv]

theorem toRat_pos_exp (x : Dy) (he : 0 ≤ x.e) :
    x.toRat = ((x.m * 2 ^ x.e.toNat : ℤ) : ℚ) := by
  unfold Dy.toRat
  push_cast
  rw [npow_toNat x.e he]

theorem pyTruncDy_eq_floor (x : Dy) (hm : 0 ≤ x.m) : pyTruncDy x = ⌊x.toRat⌋ := by
  unfold pyTruncDy
  split
  · rename_i he
    rw [toRat_pos_exp x he, Int.floor_intCast]
  · rename_i he
    push_neg at he
    rw [toRat_neg_exp x he, Rat.floor_intCast_div_natCast]
    rw [Int.tdiv_eq_ediv hm (by positivity)]
    push_cast
    rfl

theorem floorDivInt_eq_floor (x : Dy) (k : ℕ) (hk : 0 < k) :
    floorDivInt x k = ⌊x.toRat / (k : ℚ)⌋ := by
  unfold floorDivInt
  split
  · rename_i he
    have hval : x.toRat / (k : ℚ) = ((x.m * 2 ^ x.e.toNat : ℤ) : ℚ) / ((k : ℕ) : ℚ) := by
      rw [toRat_pos_exp x he]
    rw [hval, Rat.floor_intCast_div_natCast]
  · rename_i he
    push_neg at he
    have hval : x.toRat / (k : ℚ) = (x.m : ℚ) / ((k * 2 ^ (-x.e).toNat : ℕ) : ℚ) := by
      rw [toRat_neg_exp x he, div_div]
      congr 1
      push_cast
      ring
    rw [hval, Rat.floor_intCast_div_natCast]
    push_cast
    rfl

theorem fracPart1000_eq (x : Dy) (k r : ℤ)
    (h : |(x.toRat - 60 * (k : ℚ)) * 1000 - (r : ℚ)| < 1 / 2) : fracPart1000 x k = r := by
  unfold fracPart1000
  split
  · rename_i he
    rw [toRat_pos_exp x he] at h
    push_cast at h
    set A : ℤ := (x.m * 2 ^ x.e.toNat - 60 * k) * 1000 with hA
    have hAq : ((A : ℤ) : ℚ) - (r : ℚ)
        = ((x.m : ℚ) * (2 : ℚ) ^ x.e.toNat - 60 * (k : ℚ)) * 1000 - (r : ℚ) := by
      rw [hA]
      push_cast
      ring
    rw [← hAq] at h
    have h4 : |((A - r : ℤ) : ℚ)| < 1 := by
      push_cast
      exact lt_of_lt_of_le h (by norm_num)
    have h5 : ((|A - r| : ℤ) : ℚ) < 1 := by
      rw [Int.cast_abs]
      exact h4
    have h3 : |A - r| < 1 := by exact_mod_cast h5
    rw [abs_lt] at h3
    omega
  · rename_i he
    push_neg at he
    have hdpos : 0 < 2 ^ (-x.e).toNat := Nat.pos_pow_of_pos _ (by norm_num)
    apply rheDiv_eq_of_abs_lt _ _ _ hdpos
    have h2d : ((2 ^ (-x.e).toNat : ℕ) : ℚ) ≠ 0 := by positivity
    have hval : (((x.m - 60 * k * 2 ^ (-x.e).toNat) * 1000 : ℤ) : ℚ) / ((2 ^ (-x.e).toNat : ℕ) : ℚ)
        = (x.toRat - 60 * (k : ℚ)) * 1000 := by
      rw [toRat_neg_exp x he, div_eq_iff h2d]
      push_cast
      field_simp
      ring
    rw [hval]
    exact h

theorem digitVal_digitChar (d : ℕ) (h : d < 10) : digitVal (digitChar d) = some d := by
  interval_cases d <;> decide

theorem digitChar_ne_colon (d : ℕ) : digitChar d ≠ ':' := by
  unfold digitChar
  split <;> decide

theorem digitChar_ne_dot (d : ℕ) : digitChar d ≠ '.' := by
  unfold digitChar
  split <;> decide

theorem natDigitsAux_spec (f : ℕ) : ∀ n : ℕ, 0 < f → n < 10 ^ f →
    natDigitsAux f n ≠ [] ∧
    (∀ c ∈ natDigitsAux f n, ∃ d, d < 10 ∧ c = digitChar d) ∧
    ∀ a : ℕ, (natDigitsAux f n).foldl (fun acc c => acc * 10 + ((digitVal c).getD 0)) a
      = a * 10 ^ (natDigitsAux f n).length + n := by
  induction f with
  | zero => omega
  | succ f ih =>
    intro n hf hlt
    have hdef : natDigitsAux (f + 1) n = if n < 10 then [digitChar n]
        else natDigitsAux f (n / 10) ++ [digitChar (n % 10)] := rfl
    by_cases h10 : n < 10
    · have hstep : natDigitsAux (f + 1) n = [digitChar n] := by
        rw [hdef, if_pos h10]
      rw [hstep]
      refine ⟨by simp, ?_, ?_⟩
      · intro c hc
        rw [List.mem_singleton] at hc
        exact ⟨n, h10, hc⟩
      · intro a
        simp [List.foldl, digitVal_digitChar n h10]
    · have hstep : natDigitsAux (f + 1) n = natDigitsAux f (n / 10) ++ [digitChar (n % 10)] := by
        rw [hdef, if_neg h10]
      have hfpos : 0 < f := by
        rcases Nat.eq_zero_or_pos f with rfl | hfp
        · rw [pow_one] at hlt
          omega
        · exact hfp
      have hrec : n / 10 < 10 ^ f := by
        refine (Nat.div_lt_iff_lt_mul (by norm_num)).mpr ?_
        rw [← pow_succ]
        exact hlt
      obtain ⟨hne, hmem, hfold⟩ := ih (n / 10) hfpos hrec
      rw [hstep]
      refine ⟨by simp, ?_, ?_⟩
      · intro c hc
        rw [List.mem_append, List.mem_singleton] at hc
        rcases hc with hc | hc
        · exact hmem c hc
        · exact ⟨n % 10, Nat.mod_lt n (by norm_num), hc⟩
      · intro a
        rw [List.foldl_append, hfold a]
        simp only [List.foldl, digitVal_digitChar (n % 10) (Nat.mod_lt n (by norm_num)),
          Option.getD_some, List.length_append, List.length_singleton]
        rw [pow_succ]
        set Q := 10 ^ (natDigitsAux f (n / 10)).length with hQ
        have hdm : n / 10 * 10 + n % 10 = n := by omega
        calc (a * Q + n / 10) * 10 + n % 10
            = a * (Q * 10) + (n / 10 * 10 + n % 10) := by ring
          _ = a * (Q * 10) + n := by rw [hdm]

theorem natDigits_spec (n : ℕ) :
    natDigits n ≠ [] ∧
    (∀ c ∈ natDigits n, ∃ d, d < 10 ∧ c = digitChar d) ∧
    digitsVal (natDigits n) = n := by
  have hlt : n < 10 ^ (n + 1) :=
    lt_of_lt_of_le (Nat.lt_pow_self (by norm_num) n) (Nat.pow_le_pow_right (by norm_num) (by omega))
  obtain ⟨hne, hmem, hfold⟩ := natDigitsAux_spec (n + 1) n (by omega) hlt
  refine ⟨hne, hmem, ?_⟩
  unfold digitsVal natDigits
  rw [hfold 0]
  simp

theorem allDigits_of_digitChars (cs : List Char)
    (h : ∀ c ∈ cs, ∃ d, d < 10 ∧ c = digitChar d) : allDigits cs = true := by
  unfold allDigits
  rw [List.all_eq_true]
  intro c hc
  obtain ⟨d, hd, rfl⟩ := h c hc
  rw [digitVal_digitChar d hd]
  rfl

theorem parseNat_natDigits (n : ℕ) : parseNat (natDigits n) = some n := by
  obtain ⟨hne, hmem, hval⟩ := natDigits_spec n
  unfold parseNat
  rw [if_neg hne, if_pos (allDigits_of_digitChars _ hmem), hval]

theorem pad2_mem (a : ℕ) : ∀ c ∈ pad2 a, ∃ d, d < 10 ∧ c = digitChar d := by
  intro c hc
  simp only [pad2, List.mem_cons, List.not_mem_nil, or_false] at hc
  rcases hc with rfl | rfl
  · exact ⟨a / 10 % 10, Nat.mod_lt _ (by norm_num), rfl⟩
  · exact ⟨a % 10, Nat.mod_lt _ (by norm_num), rfl⟩

theorem pad3_mem (b : ℕ) : ∀ c ∈ pad3 b, ∃ d, d < 10 ∧ c = digitChar d := by
  intro c hc
  simp only [pad3, List.mem_cons, List.not_mem_nil, or_false] at hc
  rcases hc with rfl | rfl | rfl
  · exact ⟨b / 100 % 10, Nat.mod_lt _ (by norm_num), rfl⟩
  · exact ⟨b / 10 % 10, Nat.mod_lt _ (by norm_num), rfl⟩
  · exact ⟨b % 10, Nat.mod_lt _ (by norm_num), rfl⟩

theorem digitsVal_pad2 (a : ℕ) (h : a < 100) : digitsVal (pad2 a) = a := by
  unfold digitsVal pad2
  simp only [List.foldl, digitVal_digitChar (a / 10 % 10) (Nat.mod_lt _ (by norm_num)),
    digitVal_digitChar (a % 10) (Nat.mod_lt _ (by norm_num)), Option.getD_some]
  omega

theorem digitsVal_pad3 (b : ℕ) (h : b < 1000) : digitsVal (pad3 b) = b := by
  unfold digitsVal pad3
  simp only [List.foldl, digitVal_digitChar (b / 100 % 10) (Nat.mod_lt _ (by norm_num)),
    digitVal_digitChar (b / 10 % 10) (Nat.mod_lt _ (by norm_num)),
    digitVal_digitChar (b % 10) (Nat.mod_lt _ (by norm_num)), Option.getD_some]
  omega

theorem splitChar_cons (sep c : Char) (cs : List Char) :
    splitChar sep (c :: cs) = if c = sep then [] :: splitChar sep cs
      else match splitChar sep cs with
        | [] => [[c]]
        | p :: ps => (c :: p) :: ps := rfl

theorem splitChar_of_not_mem (sep : Char) : ∀ cs : List Char, sep ∉ cs →
    splitChar sep cs = [cs] := by
  intro cs
  induction cs with
  | nil => intro _; rfl
  | cons c cs ih =>
    intro h
    have hc : c ≠ sep := fun hcc => h (hcc ▸ List.mem_cons_self c cs)
    have hcs : sep ∉ cs := fun hm => h (List.mem_cons_of_mem c hm)
    rw [splitChar_cons, if_neg hc, ih hcs]

theorem splitChar_append (sep : Char) : ∀ xs ys : List Char, sep ∉ xs →
    splitChar sep (xs ++ sep :: ys) = xs :: splitChar sep ys := by
  intro xs
  induction xs with
  | nil =>
    intro ys _
    rw [List.nil_append, splitChar_cons, if_pos rfl]
  | cons x xs ih =>
    intro ys h
    have hx : x ≠ sep := fun hcc => h (hcc ▸ List.mem_cons_self x xs)
    have hxs : sep ∉ xs := fun hm => h (List.mem_cons_of_mem x hm)
    rw [List.cons_append, splitChar_cons, if_neg hx, ih ys hxs]

theorem takeWhile_append_stop (p : Char → Bool) (ys : List Char) (y : Char) (hy : p y = false) :
    ∀ xs : List Char, (∀ x ∈ xs, p x = true) → (xs ++ y :: ys).takeWhile p = xs := by
  intro xs
  induction xs with
  | nil => intro _; simp [List.takeWhile, hy]
  | cons x xs ih =>
    intro h
    rw [List.cons_append, List.takeWhile_cons, h x (List.mem_cons_self x xs),
      ih (fun z hz => h z (List.mem_cons_of_mem x hz))]
    simp

theorem dropWhile_append_stop (p : Char → Bool) (ys : List Char) (y : Char) (hy : p y = false) :
    ∀ xs : List Char, (∀ x ∈ xs, p x = true) → (xs ++ y :: ys).dropWhile p = y :: ys := by
  intro xs
  induction xs with
  | nil => intro _; simp [List.dropWhile, hy]
  | cons x xs ih =>
    intro h
    rw [List.cons_append, List.dropWhile_cons, h x (List.mem_cons_self x xs)]
    simpa using ih (fun z hz => h z (List.mem_cons_of_mem x hz))

theorem parseDecimalParts_pad (a b : ℕ) (ha : a < 100) (hb : b < 1000) :
    parseDecimalParts (pad2 a ++ '.' :: pad3 b) = some (a, b, 3) := by
  have hdot : ∀ x ∈ pad2 a, (fun c => decide (c ≠ '.')) x = true := by
    intro x hx
    obtain ⟨d, _, rfl⟩ := pad2_mem a x hx
    exact decide_eq_true (digitChar_ne_dot d)
  have htake := takeWhile_append_stop (fun c => decide (c ≠ '.')) (pad3 b) '.'
    (by simp) (pad2 a) hdot
  have hdrop := dropWhile_append_stop (fun c => decide (c ≠ '.')) (pad3 b) '.'
    (by simp) (pad2 a) hdot
  unfold parseDecimalParts
  rw [htake, hdrop]
  show (if (pad2 a ≠ [] ∨ pad3 b ≠ []) ∧ allDigits (pad2 a) = true ∧ allDigits (pad3 b) = true
    then some (digitsVal (pad2 a), digitsVal (pad3 b), (pad3 b).length) else none)
    = some (a, b, 3)
  rw [if_pos ⟨Or.inl (by simp [pad2]), allDigits_of_digitChars _ (pad2_mem a),
    allDigits_of_digitChars _ (pad3_mem b)⟩]
  rw [digitsVal_pad2 a ha, digitsVal_pad3 b hb]
  rfl

theorem format_def (ms : ℤ) :
    format_lap_time_from_ms ms = String.mk
      ((if floorDivInt (flDiv ms 1000) 60 < 0
          then '-' :: natDigits (floorDivInt (flDiv ms 1000) 60).natAbs
          else natDigits (floorDivInt (flDiv ms 1000) 60).toNat) ++
        ':' :: (pad2 ((fracPart1000 (flDiv ms 1000) (floorDivInt (flDiv ms 1000) 60)).toNat / 1000)
          ++ '.' :: pad3 ((fracPart1000 (flDiv ms 1000)
            (floorDivInt (flDiv ms 1000) 60)).toNat % 1000))) := rfl


theorem format_eq_fmtExact (n : ℕ) (hn : n ≤ 3599999) :
    format_lap_time_from_ms (n : ℤ) = fmtExactMs n := by
  have herr := abs_flDiv_sub (n : ℤ) 1000 (by norm_num)
  push_cast at herr
  have herr2 : |(flDiv (n : ℤ) 1000).toRat - (n : ℚ) / 1000|
      ≤ (3599999 : ℚ) / 1000 / 2 ^ (53 : ℕ) :=
    le_trans herr (by gcongr; exact_mod_cast hn)
  set x := (flDiv (n : ℤ) 1000).toRat with hx
  set M : ℕ := n / 60000 with hM
  set r : ℕ := n % 60000 with hr
  have hMr : n = 60000 * M + r := by omega
  have hr59 : r ≤ 59999 := by omega
  have hM59 : M ≤ 59 := by omega
  have hnQ : (n : ℚ) = 60000 * (M : ℚ) + (r : ℚ) := by exact_mod_cast hMr
  have hqM : (n : ℚ) / 1000 / 60 = (M : ℚ) + (r : ℚ) / 60000 := by
    rw [div_div, show (1000 : ℚ) * 60 = 60000 by norm_num, hnQ, add_div,
      mul_div_cancel_left₀ _ (by norm_num : (60000 : ℚ) ≠ 0)]
  have habs2 := abs_le.mp herr2
  have hmin : floorDivInt (flDiv (n : ℤ) 1000) 60 = (M : ℤ) := by
    rw [floorDivInt_eq_floor _ 60 (by norm_num), ← hx]
    push_cast
    by_cases hr0 : r = 0
    · rcases (by omega : 1 ≤ M ∨ n = 0) with hM1 | hn0
      · have hzval : ((n : ℕ) : ℤ) = (60 * (M : ℤ)) * ((1000 : ℕ) : ℤ) := by
          push_cast
          omega
        have hexact : x = ((60 * (M : ℤ) : ℤ) : ℚ) := by
          rw [hx, hzval]
          exact flDiv_int (60 * (M : ℤ)) 1000 (by norm_num) (by positivity)
            (by push_cast; omega)
        rw [hexact]
        push_cast
        rw [show (60 : ℚ) * (M : ℚ) / 60 = (M : ℚ) by
          rw [mul_comm, mul_div_assoc, div_self (by norm_num : (60 : ℚ) ≠ 0), mul_one]]
        exact Int.floor_intCast M
      · have hM0 : M = 0 := by omega
        have hx0 : x = 0 := by
          rw [hx, hn0]
          rw [show flDiv ((0 : ℕ) : ℤ) 1000 = ⟨0, 0⟩ from rfl, toRat_int]
          norm_num
        rw [hx0, hM0]
        norm_num
    · have hδ : |x / 60 - (n : ℚ) / 1000 / 60| ≤ (3599999 : ℚ) / 1000 / 2 ^ (53 : ℕ) / 60 := by
        rw [div_sub_div_same, abs_div, abs_of_pos (by norm_num : (0 : ℚ) < 60)]
        gcongr
      obtain ⟨hδ1, hδ2⟩ := abs_le.mp hδ
      rw [hqM] at hδ1 hδ2
      have hr1 : (1 : ℚ) ≤ (r : ℚ) := by exact_mod_cast (by omega : 1 ≤ r)
      have hrQ : (r : ℚ) ≤ 59999 := by exact_mod_cast hr59
      have hrlow : (1 : ℚ) / 60000 ≤ (r : ℚ) / 60000 := by gcongr
      have hrhigh : (r : ℚ) / 60000 ≤ 59999 / 60000 := by gcongr
      rw [Int.floor_eq_iff]
      push_cast
      constructor
      · nlinarith [hδ1, hrlow]
      · nlinarith [hδ2, hrhigh]
  have hfrac : fracPart1000 (flDiv (n : ℤ) 1000) ((M : ℕ) : ℤ) = ((r : ℕ) : ℤ) := by
    apply fracPart1000_eq
    rw [← hx]
    push_cast
    have hqr : ((n : ℚ) / 1000 - 60 * (M : ℚ)) * 1000 = (r : ℚ) := by
      rw [sub_mul, div_mul_cancel₀ _ (by norm_num : (1000 : ℚ) ≠ 0), hnQ]
      ring
    have hiden : (x - 60 * (M : ℚ)) * 1000 - (r : ℚ) = (x - (n : ℚ) / 1000) * 1000 := by
      rw [← hqr]
      ring
    rw [hiden, abs_mul, abs_of_pos (by norm_num : (0 : ℚ) < 1000)]
    calc |x - (n : ℚ) / 1000| * 1000 ≤ (3599999 : ℚ) / 1000 / 2 ^ (53 : ℕ) * 1000 := by
          gcongr
      _ < 1 / 2 := by norm_num
  rw [format_def, hmin, hfrac]
  rw [if_neg (by omega : ¬ ((M : ℕ) : ℤ) < 0)]
  rw [Int.toNat_natCast, Int.toNat_natCast]
  unfold fmtExactMs
  rw [← hM, ← hr]

theorem parse_lap_time_fmt (Mn a b : ℕ) (ha : a < 100) (hb : b < 1000) :
    parse_lap_time (String.mk (natDigits Mn ++ ':' :: (pad2 a ++ '.' :: pad3 b)))
      = some (pyTruncDy (mulDyInt (addDy (intToDy ((Mn : ℤ) * 60))
          (flDiv ((a : ℤ) * 10 ^ 3 + (b : ℤ)) (10 ^ 3))) 1000)) := by
  obtain ⟨hnne, hmem, _⟩ := natDigits_spec Mn
  have hcolon1 : ':' ∉ natDigits Mn := by
    intro hc
    obtain ⟨d, _, hd⟩ := hmem ':' hc
    exact digitChar_ne_colon d hd.symm
  have hcolon2 : ':' ∉ pad2 a ++ '.' :: pad3 b := by
    intro hc
    rcases List.mem_append.mp hc with hc | hc
    · obtain ⟨d, _, hd⟩ := pad2_mem a ':' hc
      exact digitChar_ne_colon d hd.symm
    · rcases List.mem_cons.mp hc with hc | hc
      · exact absurd hc (by decide)
      · obtain ⟨d, _, hd⟩ := pad3_mem b ':' hc
        exact digitChar_ne_colon d hd.symm
  have hsne : String.mk (natDigits Mn ++ ':' :: (pad2 a ++ '.' :: pad3 b)) ≠ "" := by
    intro hcon
    have hdata : natDigits Mn ++ ':' :: (pad2 a ++ '.' :: pad3 b) = [] :=
      congrArg String.data hcon
    simp at hdata
  have hct : (String.mk (natDigits Mn ++ ':' :: (pad2 a ++ '.' :: pad3 b))).data.contains ':'
      = true :=
    List.elem_eq_true_of_mem (List.mem_append_right _ (List.mem_cons_self _ _))
  have hsplit : splitChar ':' (natDigits Mn ++ ':' :: (pad2 a ++ '.' :: pad3 b))
      = [natDigits Mn, pad2 a ++ '.' :: pad3 b] := by
    rw [splitChar_append ':' (natDigits Mn) _ hcolon1,
      splitChar_of_not_mem ':' _ hcolon2]
  unfold parse_lap_time
  rw [if_neg hsne, hct]
  simp only [if_true]
  rw [hsplit]
  simp only [parseNat_natDigits, parseDecimalParts_pad a b ha hb]

theorem parse_fmt (n : ℕ) (hn : n ≤ 3599999) :
    ∃ m : ℤ, parse_lap_time (fmtExactMs n) = some m ∧ (m = (n : ℤ) ∨ m = (n : ℤ) - 1) := by
  set M : ℕ := n / 60000 with hM
  set a : ℕ := n % 60000 / 1000 with ha
  set b : ℕ := n % 60000 % 1000 with hb
  have hn_eq : n = 60000 * M + 1000 * a + b := by omega
  have ha100 : a < 100 := by omega
  have hb1000 : b < 1000 := by omega
  have hM59 : M ≤ 59 := by omega
  have ha59 : a ≤ 59 := by omega
  have hb999 : b ≤ 999 := by omega
  have hfmt : fmtExactMs n = String.mk (natDigits M ++ ':' :: (pad2 a ++ '.' :: pad3 b)) := by
    rw [hM, ha, hb]
    rfl
  rw [hfmt, parse_lap_time_fmt M a b ha100 hb1000]
  refine ⟨_, rfl, ?_⟩
  rw [show ((a : ℤ) * 10 ^ 3 + (b : ℤ)) = ((a : ℤ) * 1000 + (b : ℤ)) by norm_num,
    show ((10 : ℕ) ^ 3) = 1000 by norm_num]
  set t0 : Dy := intToDy ((M : ℤ) * 60) with ht0def
  set sec : Dy := flDiv ((a : ℤ) * 1000 + (b : ℤ)) 1000 with hsecdef
  set t1 : Dy := addDy t0 sec with ht1def
  set v : Dy := mulDyInt t1 1000 with hvdef
  have ht0 : t0 = ⟨(M : ℤ) * 60, 0⟩ := by
    rw [ht0def]
    refine intToDy_eq _ ?_
    rw [show (M : ℤ) * 60 = ((M * 60 : ℕ) : ℤ) by push_cast; ring, Int.natAbs_ofNat]
    omega
  have ht0v : t0.toRat = 60 * (M : ℚ) := by
    rw [ht0, toRat_int]
    push_cast
    ring
  have ht0m : 0 ≤ t0.m := by
    rw [ht0]
    positivity
  have hsecm : 0 ≤ sec.m := flDiv_m_nonneg _ _ (by positivity)
  have hsecnn : 0 ≤ sec.toRat := toRat_nonneg _ hsecm
  have haQ : (a : ℚ) ≤ 59 := by exact_mod_cast ha59
  have hbQ : (b : ℚ) ≤ 999 := by exact_mod_cast hb999
  have hMQ : (M : ℚ) ≤ 59 := by exact_mod_cast hM59
  have hSle : ((a : ℚ) * 1000 + (b : ℚ)) / 1000 ≤ 60 := by
    rw [div_le_iff₀ (by norm_num : (0 : ℚ) < 1000)]
    linarith
  have hSnn : (0 : ℚ) ≤ ((a : ℚ) * 1000 + (b : ℚ)) / 1000 := by positivity
  have hsecb : |sec.toRat - ((a : ℚ) * 1000 + (b : ℚ)) / 1000| ≤ 60 / 2 ^ (53 : ℕ) := by
    have h := abs_flDiv_sub ((a : ℤ) * 1000 + (b : ℤ)) 1000 (by norm_num)
    push_cast at h
    have hA : |(a : ℚ) * 1000 + (b : ℚ)| = (a : ℚ) * 1000 + (b : ℚ) :=
      abs_of_nonneg (by positivity)
    rw [hA] at h
    refine le_trans h ?_
    gcongr
  obtain ⟨hs1, hs2⟩ := abs_le.mp hsecb
  have ht1b := abs_addDy_sub t0 sec
  rw [ht0v] at ht1b
  have hsum_nn : 0 ≤ 60 * (M : ℚ) + sec.toRat := add_nonneg (by positivity) hsecnn
  have heps60 : (60 : ℚ) / 2 ^ (53 : ℕ) ≤ 1 := by norm_num
  have habs_sum : |60 * (M : ℚ) + sec.toRat| ≤ 3601 := by
    rw [abs_of_nonneg hsum_nn]
    linarith
  have ht1bb : |t1.toRat - (60 * (M : ℚ) + sec.toRat)| ≤ 3601 / 2 ^ (53 : ℕ) := by
    refine le_trans ht1b ?_
    gcongr
  have ht1S : |t1.toRat - (60 * (M : ℚ) + ((a : ℚ) * 1000 + (b : ℚ)) / 1000)|
      ≤ 3661 / 2 ^ (53 : ℕ) := by
    have htri := abs_sub_le t1.toRat (60 * (M : ℚ) + sec.toRat)
      (60 * (M : ℚ) + ((a : ℚ) * 1000 + (b : ℚ)) / 1000)
    have heq : |60 * (M : ℚ) + sec.toRat - (60 * (M : ℚ) + ((a : ℚ) * 1000 + (b : ℚ)) / 1000)|
        = |sec.toRat - ((a : ℚ) * 1000 + (b : ℚ)) / 1000| := by
      congr 1
      ring
    rw [heq] at htri
    have hsplit53 : (3601 : ℚ) / 2 ^ (53 : ℕ) + 60 / 2 ^ (53 : ℕ) = 3661 / 2 ^ (53 : ℕ) := by
      ring
    linarith
  obtain ⟨ht1l, ht1u⟩ := abs_le.mp ht1S
  have ht1m : 0 ≤ t1.m := addDy_m_nonneg t0 sec ht0m hsecm
  have hvm : 0 ≤ v.m := mulDyInt_m_nonneg t1 1000 ht1m (by norm_num)
  have heps3661 : (3661 : ℚ) / 2 ^ (53 : ℕ) ≤ 1 := by norm_num
  have ht1abs : |t1.toRat| ≤ 3601 := by
    rw [abs_of_nonneg (toRat_nonneg t1 ht1m)]
    linarith
  have hvb := abs_mulDyInt_sub t1 1000
  push_cast at hvb
  have hvb2 : |v.toRat - t1.toRat * 1000| ≤ 3601000 / 2 ^ (53 : ℕ) := by
    refine le_trans hvb ?_
    have habs1000 : |t1.toRat * 1000| ≤ 3601000 := by
      rw [abs_mul, (by norm_num : |(1000 : ℚ)| = 1000)]
      calc |t1.toRat| * 1000 ≤ 3601 * 1000 :=
            mul_le_mul_of_nonneg_right ht1abs (by norm_num)
        _ = 3601000 := by norm_num
    gcongr
  have hnval : 60 * (M : ℚ) * 1000 + ((a : ℚ) * 1000 + (b : ℚ)) / 1000 * 1000 = (n : ℚ) := by
    rw [div_mul_cancel₀ _ (by norm_num : (1000 : ℚ) ≠ 0)]
    have hcast : (n : ℚ) = 60000 * (M : ℚ) + 1000 * (a : ℚ) + (b : ℚ) := by
      exact_mod_cast hn_eq
    linarith
  have hvn : |v.toRat - (n : ℚ)| ≤ 7262000 / 2 ^ (53 : ℕ) := by
    have htri := abs_sub_le v.toRat (t1.toRat * 1000) ((n : ℕ) : ℚ)
    have h2 : |t1.toRat * 1000 - (n : ℚ)| ≤ 3661000 / 2 ^ (53 : ℕ) := by
      rw [← hnval]
      have hfact : t1.toRat * 1000 - (60 * (M : ℚ) * 1000 + ((a : ℚ) * 1000 + (b : ℚ)) / 1000 * 1000)
          = (t1.toRat - (60 * (M : ℚ) + ((a : ℚ) * 1000 + (b : ℚ)) / 1000)) * 1000 := by
        ring
      rw [hfact, abs_mul, (by norm_num : |(1000 : ℚ)| = 1000)]
      calc |t1.toRat - (60 * (M : ℚ) + ((a : ℚ) * 1000 + (b : ℚ)) / 1000)| * 1000
          ≤ 3661 / 2 ^ (53 : ℕ) * 1000 := mul_le_mul_of_nonneg_right ht1S (by norm_num)
        _ = 3661000 / 2 ^ (53 : ℕ) := by ring
    have hsum : (3601000 : ℚ) / 2 ^ (53 : ℕ) + 3661000 / 2 ^ (53 : ℕ)
        = 7262000 / 2 ^ (53 : ℕ) := by ring
    linarith
  have hsmall : (7262000 : ℚ) / 2 ^ (53 : ℕ) < 1 / 2 := by norm_num
  have htrunc : pyTruncDy v = ⌊v.toRat⌋ := pyTruncDy_eq_floor v hvm
  obtain ⟨hv1, hv2⟩ := abs_le.mp hvn
  rcases le_or_lt ((n : ℕ) : ℚ) v.toRat with hge | hlt
  · left
    rw [htrunc, Int.floor_eq_iff]
    constructor
    · push_cast
      exact hge
    · push_cast
      linarith
  · right
    rw [htrunc, Int.floor_eq_iff]
    constructor
    · push_cast
      linarith
    · push_cast
      linarith

/-- C1 (counterexample to the claim as stated): the round trip is not the
identity on all of [0, 3599999].  At n = 1001 the float chain of
parse_lap_time on the formatted string "0:01.001" truncates to 1000, one
millisecond short, so parse(format(1001)) = 1000 but 1000 is not 1001. -/
theorem claim_C1_counterexample :
    parse_lap_time (format_lap_time_from_ms 1001) = some 1000 ∧ (1000 : ℤ) ≠ 1001 :=
  ⟨by decide, by decide⟩

/-- C1, amended: for every millisecond integer n in [0, 3599999],
format_lap_time_from_ms renders the exact M:SS.mmm decimal string (minutes
unpadded, seconds zero-padded to 2 + 3 digits), and parse_lap_time maps the
formatted string back to n or to n - 1 (the float chain
int((minutes * 60 + seconds) * 1000) can truncate one millisecond short,
as it does at n = 1001); concretely format(99387) = "1:39.387" and
parse("1:39.387") = 99387.  The original claim parse(format(n)) = n for all
n in the range is refuted by claim_C1_counterexample. -/
theorem claim_C1 :
    (∀ n : ℕ, n ≤ 3599999 →
      format_lap_time_from_ms (n : ℤ) = fmtExactMs n ∧
      ∃ m : ℤ, parse_lap_time (format_lap_time_from_ms (n : ℤ)) = some m ∧
        (m = (n : ℤ) ∨ m = (n : ℤ) - 1)) ∧
    format_lap_time_from_ms 99387 = "1:39.387" ∧
    parse_lap_time "1:39.387" = some 99387 := by
  refine ⟨fun n hn => ⟨format_eq_fmtExact n hn, ?_⟩, by decide, by decide⟩
  rw [format_eq_fmtExact n hn]
  exact parse_fmt n hn

theorem claim_C1_witness :
    format_lap_time_from_ms ((99387 : ℕ) : ℤ) = fmtExactMs 99387 ∧
    ∃ m : ℤ, parse_lap_time (format_lap_time_from_ms ((99387 : ℕ) : ℤ)) = some m ∧
      (m = ((99387 : ℕ) : ℤ) ∨ m = ((99387 : ℕ) : ℤ) - 1) :=
  claim_C1.1 99387 (by norm_num)

/-- The decimal string key of a lap number determines the lap number
(decimal rendering is injective, by evaluating the digits back). -/
theorem jsonLapKey_inj (a k : ℕ) (h : jsonLapKey a = jsonLapKey k) : a = k := by
  unfold jsonLapKey at h
  injection h with h1
  injection h1 with h2
  have ha := (natDigits_spec a).2.2
  have hk2 := (natDigits_spec k).2.2
  rw [← ha, ← hk2, h2]

/-- Looking a lap up in the string-keyed laps dict by its decimal string
key finds exactly the fallback entry of that lap. -/
theorem lookup_map_jsonKey (l : List (ℕ × LapEntry)) (k : ℕ) :
    (l.map (fun p => (jsonLapKey p.1, p.2))).lookup (jsonLapKey k) = l.lookup k := by
  induction l with
  | nil => rfl
  | cons hd tl ih =>
    obtain ⟨a, b⟩ := hd
    by_cases hk : a = k
    · subst hk
      simp [List.lookup_cons, ih]
    · have hne : jsonLapKey k ≠ jsonLapKey a := fun hcon => hk (jsonLapKey_inj k a hcon).symm
      simp [List.lookup_cons, beq_false_of_ne (Ne.symm hk), beq_false_of_ne hne, ih]

/-- Looking the string-keyed laps dict up by an int key finds nothing. -/
theorem lookup_map_int_none (l : List (ℕ × LapEntry)) (n : ℕ) :
    (l.map (fun p => (jsonLapKey p.1, p.2))).lookup (PyKey.int n) = none := by
  induction l with
  | nil => rfl
  | cons hd tl ih =>
    have hne : (PyKey.int n : PyKey) ≠ jsonLapKey hd.1 := fun hcon => by
      rw [jsonLapKey] at hcon
      exact PyKey.noConfusion hcon
    simp [List.lookup_cons, beq_false_of_ne hne, ih]

/-- Claim C3 (code bug): the per-lap official override in the merged lap
response is dead code.  The laps dict read back through get_json has the
decimal strings of the lap numbers as keys while the official best lap
number stays an int, and a Python int never equals a str, so the
membership test guarding the overwrite at api_server.py line 985 never
passes: the merged response returns every fallback lap entry unchanged -
the official best lap's entry keeps its fallback lap_time and
lap_time_ms - and probing the laps dict with the int best lap number
finds no key at all.  The overwrite of that entry's time fields that the
specification describes never happens. -/
theorem claim_C3 (od : OfficialBest) (starts ends : List LapMarker)
    (fb : LapDataResult) (hfb : get_fallback_lap_data starts ends = Except.ok fb) :
    ∃ res, get_lap_data (some od) starts ends = Except.ok res ∧
      res.laps = fb.laps.map (fun p => (jsonLapKey p.1, p.2)) ∧
      (∀ k e, fb.laps.lookup k = some e → res.laps.lookup (jsonLapKey k) = some e) ∧
      res.laps.lookup (PyKey.int od.best_lap_number) = none := by
  have h : get_lap_data (some od) starts ends = Except.ok
      { laps := fb.laps.map (fun p => (jsonLapKey p.1, p.2))
        best_lap := some od.best_lap_number
        best_lap_time := some od.best_lap_time
        best_lap_time_ms := parse_lap_time od.best_lap_time
        total_laps := od.total_laps } := by
    simp only [get_lap_data, hfb, jsonKeys_not_contains_int, Bool.false_eq_true, if_false]
  refine ⟨_, h, rfl, ?_, lookup_map_int_none fb.laps od.best_lap_number⟩
  intro k e he
  rw [lookup_map_jsonKey fb.laps k, he]

/-- Witness for claim C3: official best lap 9 at 1:38.200 while the
fallback map holds lap 9 with its sensor-derived 95000 ms entry; the
merged response keeps the fallback entry untouched under the string key
and has no entry under the int key 9. -/
theorem claim_C3_witness : ∃ res,
    get_lap_data (some ⟨"1:38.200", 9, 20⟩) [⟨9, 0⟩] [⟨9, 95000⟩] = Except.ok res ∧
    res.laps = ([(9, fallbackEntry 9 95000)] : List (ℕ × LapEntry)).map
      (fun p => (jsonLapKey p.1, p.2)) ∧
    (∀ k e, ([(9, fallbackEntry 9 95000)] : List (ℕ × LapEntry)).lookup k = some e →
      res.laps.lookup (jsonLapKey k) = some e) ∧
    res.laps.lookup (PyKey.int 9) = none := by
  have h : get_fallback_lap_data [⟨9, 0⟩] [⟨9, 95000⟩] =
      Except.ok ⟨[(9, fallbackEntry 9 95000)], some 9,
        some (format_lap_time_from_ms 95000), some 95000, 1⟩ := by decide
  exact claim_C3 ⟨"1:38.200", 9, 20⟩ [⟨9, 0⟩] [⟨9, 95000⟩] _ h
